import Mathlib

/-!
# A shallow embedding of the mal-rust interpreter core

This file embeds the interpreter of the `mal-rust` repository (crate `malrs`,
final stage `step7_quote`) into Lean 4 and proves properties of the embedding.

Modelling conventions:

* Rust `f64` numbers are modelled by exact rationals (`Rat`).  All claims
  settled here are insensitive to this except where explicitly noted; IEEE-754
  specific behaviour (NaN, infinities, shortest-decimal printing) is outside
  the model.
* Reference-shared mutable state (`Rc<EnvImpl>` environments, `RefCell`
  atoms) is modelled by integer handles into stores carried in an `Interp`
  record, threaded through every operation.
* Rust function pointers are modelled by the name of the built-in; all
  `RustFunc` values created by the program come from the fixed `core::ns`
  table, whose function pointers are pairwise distinct, so pointer equality
  coincides with name equality.
* Rust panics (slice out of range, `expect`) are modelled by the dedicated
  error `EErr.panic`; recursion budgets (`EErr.fuel` for host-stack depth,
  `EErr.steps` for trampoline iterations) model divergence and stack
  exhaustion.  The Rust code has no fuel; a result of `.fuel`/`.steps` means
  the budget given to the model was exhausted, and a result that holds for
  every budget means the Rust code diverges.
* `HashMap` iteration order is unspecified in Rust; the model uses insertion
  order.  File IO (`slurp`) and stdout (`prn`, `println`) are not modelled:
  `slurp` fails, the printers return `Nil` without writing.
-/

set_option autoImplicit false

namespace MalRs

/-- Runtime values: `types.rs`, `enum MalValueType` (with `MalValue` being an
`Rc` around it).  `mmap` stores hash-map entries as (hash key, original key
value, value) in insertion order; `rust` stores the built-in's name in place
of the function pointer together with the captured environment handle;
`malf` is `MalFunction` (body, parameters, captured env, macro flag, meta);
`atom` is a handle into the atom store. -/
inductive MalVal where
  | nil
  | tru
  | fls
  | num (q : Rat)
  | sym (s : String)
  | str (s : String)
  | keyword (s : String)
  | list (xs : List MalVal)
  | vect (xs : List MalVal)
  | mmap (entries : List (String × MalVal × MalVal))
  | rust (fname : String) (envId : Nat) (meta : MalVal)
  | malf (body : MalVal) (params : List String) (envId : Nat) (macroFlag : Bool) (meta : MalVal)
  | atom (id : Nat)

/-- Error kinds: `types.rs`, `enum MalError`. -/
inductive MalErrK where
  | emptyProgram
  | tokenizer (msg : String)
  | parser (msg : String)
  | undefinedSymbol (name : String)
  | evaluation (msg : String)
  | rustFunction (msg : String)
  | specialForm (msg : String)
  | exception (v : MalVal)

/-- Results of running embedded code: either a value, a `MalError`, a Rust
panic, or exhaustion of one of the model's recursion budgets. -/
inductive EErr where
  | mal (e : MalErrK)
  | panic (msg : String)
  | fuel
  | steps

abbrev Res (α : Type) := Except EErr α

/-- Token kinds: `types.rs`, `enum MalTokenType`. -/
inductive MalTokenType where
  | lParen
  | rParen
  | lCurly
  | rCurly
  | lBracket
  | rBracket
  | atSign
  | singleQuote
  | backTick
  | tilde
  | tildeAtSign
  | caret
  | nilTok
  | trueTok
  | falseTok
  | numberTok (q : Rat)
  | symbolTok (s : String)
  | strTok (s : String)
  | keywordTok (s : String)
deriving DecidableEq, Repr

/-! ## Characters

Character constants written via `Char.ofNat` to keep the file ASCII-plain:
40 `(`, 41 `)`, 123/125 curly braces, 91/93 square brackets, 64 at sign,
39 single quote, 96 backtick, 126 tilde, 94 caret, 34 double quote,
59 semicolon, 58 colon, 44 comma, 92 backslash, 10 newline. -/

def cLParen : Char := Char.ofNat 40
def cRParen : Char := Char.ofNat 41
def cLCurly : Char := Char.ofNat 123
def cRCurly : Char := Char.ofNat 125
def cLBracket : Char := Char.ofNat 91
def cRBracket : Char := Char.ofNat 93
def cAtSign : Char := Char.ofNat 64
def cSQuote : Char := Char.ofNat 39
def cBacktick : Char := Char.ofNat 96
def cTilde : Char := Char.ofNat 126
def cCaret : Char := Char.ofNat 94
def cDQuote : Char := Char.ofNat 34
def cSemi : Char := Char.ofNat 59
def cColon : Char := Char.ofNat 58
def cComma : Char := Char.ofNat 44
def cBackslash : Char := Char.ofNat 92
def cNewline : Char := Char.ofNat 10

/-- `\s` of the token regex (ASCII white space: space, tab, newline,
carriage return, vertical tab, form feed). -/
def isWsChar (c : Char) : Bool :=
  c = Char.ofNat 32 || c = Char.ofNat 9 || c = Char.ofNat 10 ||
  c = Char.ofNat 13 || c = Char.ofNat 11 || c = Char.ofNat 12

/-- The `[\s,]` separator class of `TOKEN_RE_STR` (`tokenizer.rs` line 10). -/
def isSepChar (c : Char) : Bool := isWsChar c || c = cComma

/-- The one-character special class `[\[\]{}()'`+backtick+`~^@]` of
`TOKEN_RE_STR`. -/
def isSpecialChar (c : Char) : Bool :=
  c = cLBracket || c = cRBracket || c = cLCurly || c = cRCurly ||
  c = cLParen || c = cRParen || c = cSQuote || c = cBacktick ||
  c = cTilde || c = cCaret || c = cAtSign

/-- Characters excluded from the final symbol-run alternative
`[^\s\[\]{}(`+quote+backtick+`,;)]+` of `TOKEN_RE_STR`. -/
def isSymBreakChar (c : Char) : Bool :=
  isWsChar c || c = cLBracket || c = cRBracket || c = cLCurly || c = cRCurly ||
  c = cLParen || c = cRParen || c = cSQuote || c = cDQuote || c = cBacktick ||
  c = cComma || c = cSemi

/-! ## Tokenizer (`tokenizer.rs`)

`tokenize` repeatedly matches `TOKEN_RE` (skip separators, then the first
matching alternative: `~@`, a single special character, a string literal
`"(?:\\.|[^\\"])*"?`, a comment `;.*`, or a symbol run) and feeds each
captured token text through `scan_token`. -/

/-- Consume the string-literal alternative of the token regex, starting just
after the opening double quote.  Returns the token text after the quote
(including the closing quote when present) and the rest of the input.  A
backslash at end of input or immediately before a newline ends the match
before the backslash (the regex `\\.` cannot match there and `.` does not
match newline). -/
def grabStringBody : List Char → (List Char × List Char)
  | [] => ([], [])
  | c :: rest =>
    if c = cDQuote then ([c], rest)
    else if c = cBackslash then
      match rest with
      | [] => ([], c :: rest)
      | d :: rest' =>
        if d = cNewline then ([], c :: rest)
        else
          let (tk, rem) := grabStringBody rest'
          (c :: d :: tk, rem)
    else
      let (tk, rem) := grabStringBody rest
      (c :: tk, rem)

/-- Extract the next token text (first character is not a separator),
following the alternative order of `TOKEN_RE_STR`. -/
def grabToken : List Char → (List Char × List Char)
  | [] => ([], [])
  | c :: rest =>
    if c = cTilde then
      match rest with
      | d :: rest' => if d = cAtSign then ([c, d], rest') else ([c], rest)
      | [] => ([c], rest)
    else if isSpecialChar c then ([c], rest)
    else if c = cDQuote then
      let (tk, rem) := grabStringBody rest
      (c :: tk, rem)
    else if c = cSemi then
      (c :: rest.takeWhile (fun d => d ≠ cNewline),
       rest.dropWhile (fun d => d ≠ cNewline))
    else
      (c :: rest.takeWhile (fun d => !isSymBreakChar d),
       rest.dropWhile (fun d => !isSymBreakChar d))

/-- `unescape_char` (`tokenizer.rs` lines 71-76). -/
def unescapeChar (c : Char) : Char :=
  if c = 'n' then cNewline else c

/-- Loop body of `scan_string` (`tokenizer.rs` lines 55-66): the input is the
token text after the opening quote. -/
def scanStringGo : List Char → List Char → Res String
  | [], _ => throw (.mal (.tokenizer "Expected '\"', got EOF"))
  | c :: rest, acc =>
    if c = cDQuote then pure (String.mk acc.reverse)
    else if c = cBackslash then
      match rest with
      | [] => throw (.mal (.tokenizer "Expected '\"', got EOF"))
      | d :: rest' => scanStringGo rest' (unescapeChar d :: acc)
    else scanStringGo rest (c :: acc)

/-- `scan_string` (`tokenizer.rs` lines 49-69): skips the opening quote then
unescapes until the closing quote. -/
def scanString (text : List Char) : Res String :=
  scanStringGo text.tail []

/-- `scan_keyword` (`tokenizer.rs` lines 78-80): drop the leading colon. -/
def scanKeyword (text : List Char) : MalTokenType :=
  .keywordTok (String.mk text.tail)

def isDigitChar (c : Char) : Bool := 48 ≤ c.toNat && c.toNat ≤ 57

/-- `NUMBER_RE_STR = ^-?\d+\.?\d*$` (`tokenizer.rs` line 94). -/
def isNumberText (text : List Char) : Bool :=
  let body := match text with
    | c :: rest => if c = Char.ofNat 45 then rest else text
    | [] => text
  match body.span isDigitChar with
  | (intPart, rest) =>
    !intPart.isEmpty &&
      (match rest with
       | [] => true
       | d :: frac => d = Char.ofNat 46 && frac.all isDigitChar)

def digitsToNat (ds : List Char) : Nat :=
  ds.foldl (fun a c => a * 10 + (c.toNat - 48)) 0

/-- Exact-rational model of `text.parse::<f64>()` on a token matching
`NUMBER_RE` (model boundary: the Rust parse rounds to binary64 and may
overflow to infinity; the model keeps the exact decimal value). -/
def parseNumber (text : List Char) : Rat :=
  let (neg, body) := match text with
    | c :: rest => if c = Char.ofNat 45 then (true, rest) else (false, text)
    | [] => (false, text)
  let (intPart, rest) := body.span isDigitChar
  let frac := match rest with
    | _ :: fs => fs
    | [] => []
  let mag : Rat := (digitsToNat intPart : Rat) + (digitsToNat frac : Rat) / ((10 : Rat) ^ frac.length)
  if neg then -mag else mag

/-- `scan_nonspecial_token` (`tokenizer.rs` lines 82-107): reserved names,
then numbers, then symbols. -/
def scanNonspecialToken (text : List Char) : MalTokenType :=
  if text = "nil".data then .nilTok
  else if text = "true".data then .trueTok
  else if text = "false".data then .falseTok
  else if isNumberText text then .numberTok (parseNumber text)
  else .symbolTok (String.mk text)

/-- `scan_token` (`tokenizer.rs` lines 26-47).  Dispatch on the first
character of the token text; note that there is no arm for the caret, which
therefore falls through to `scan_nonspecial_token`. -/
def scanToken (text : List Char) : Res (Option MalTokenType) :=
  match text with
  | [] => throw (.mal (.tokenizer "Unexpected EOF"))
  | c :: _ =>
    if c = cLParen then pure (some .lParen)
    else if c = cRParen then pure (some .rParen)
    else if c = cLCurly then pure (some .lCurly)
    else if c = cRCurly then pure (some .rCurly)
    else if c = cRBracket then pure (some .rBracket)
    else if c = cLBracket then pure (some .lBracket)
    else if c = cAtSign then pure (some .atSign)
    else if c = cSQuote then pure (some .singleQuote)
    else if c = cBacktick then pure (some .backTick)
    else if c = cTilde then
      pure (some (if text = [cTilde, cAtSign] then .tildeAtSign else .tilde))
    else if c = cSemi then pure none
    else if c = cDQuote then do
      pure (some (.strTok (← scanString text)))
    else if c = cColon then pure (some (scanKeyword text))
    else pure (some (scanNonspecialToken text))

/-- The capture loop of `tokenize` (`tokenizer.rs` lines 8-24), fuelled by
the remaining input length (one token consumes at least one character, so
`length + 1` fuel always suffices). -/
def tokenizeGo : Nat → List Char → Res (List MalTokenType)
  | 0, _ => throw .fuel
  | n + 1, cs =>
    let cs := cs.dropWhile isSepChar
    match cs with
    | [] => pure []
    | _ => do
      let (tk, rest) := grabToken cs
      match ← scanToken tk with
      | some t => do pure (t :: (← tokenizeGo n rest))
      | none => tokenizeGo n rest

/-- `tokenize` (`tokenizer.rs` lines 8-24). -/
def tokenize (program : String) : Res (List MalTokenType) :=
  tokenizeGo (program.length + 1) program.data

/-! ## Hash maps (`types.rs`, `MalMap` and `MalMapKey`)

A `MalMap` is a `HashMap<MalMapKey, MalValue>` whose key hashes and compares
by the string `"s" ++ text` (String keys) or `"k" ++ text` (Keyword keys),
keeping the original key value alongside.  The model stores entries as a
list `(hash key, original key, value)` without duplicate hash keys, in
insertion order (Rust's iteration order is unspecified). -/

abbrev MapEntries := List (String × MalVal × MalVal)

/-- The hash-key computation shared by `extend_map_from_arguments`, `get`,
`contains` and `dissoc`: `format!("s{}", val)` / `format!("k{}", val)`. -/
def mapKeyStr : MalVal → Option String
  | .str v => some ("s" ++ v)
  | .keyword v => some ("k" ++ v)
  | _ => none

/-- `HashMap::insert`: replace the value if the key is present (keeping the
previously stored key), else add a new entry. -/
def mapInsert : MapEntries → String → MalVal → MalVal → MapEntries
  | [], hk, k, v => [(hk, k, v)]
  | (hk', k', v') :: rest, hk, k, v =>
    if hk' = hk then (hk', k', v) :: rest
    else (hk', k', v') :: mapInsert rest hk k v

/-- `MalMap::extend_map_from_arguments` (`types.rs` lines 279-304): the
leading `assert_eq!(0, arguments.len() % 2)` is modelled by a panic on an
odd tail. -/
def extendMapFromArguments : MapEntries → List MalVal → Res MapEntries
  | m, [] => pure m
  | m, k :: v :: rest =>
    match mapKeyStr k with
    | some hk => extendMapFromArguments (mapInsert m hk k v) rest
    | none => throw (.mal (.parser "hash map keys must be strings or keywords"))
  | _, [_] => throw (.panic "assertion failed: even number of map arguments")

/-- `MalMap::from_arguments` (`types.rs` lines 233-244). -/
def mapFromArguments (args : List MalVal) : Res MapEntries :=
  if args.length % 2 ≠ 0 then
    throw (.mal (.parser "hash map must have an even number of arguments"))
  else extendMapFromArguments [] args

/-- `MalMap::get` (`types.rs` lines 306-320): `Nil` for a non-String/Keyword
key or an absent key. -/
def mapGet (m : MapEntries) (key : MalVal) : MalVal :=
  match mapKeyStr key with
  | none => .nil
  | some hk =>
    match m.find? (fun e => e.1 = hk) with
    | some e => e.2.2
    | none => .nil

/-- `MalMap::contains` (`types.rs` lines 322-333). -/
def mapContains (m : MapEntries) (key : MalVal) : Bool :=
  match mapKeyStr key with
  | none => false
  | some hk => (m.find? (fun e => e.1 = hk)).isSome

/-! ## Environments (`env.rs`)

`Env` is `Rc<EnvImpl>` with an interior-mutable binding table and an
optional parent.  The model keeps all environments in `Interp.envs`,
addressed by index; `Rc::clone` is copying the index.  Atoms
(`RefCell<MalValue>` under `Rc`) live in `Interp.atoms` likewise. -/

structure EnvData where
  data : List (String × MalVal)
  outer : Option Nat

structure Interp where
  envs : List EnvData
  atoms : List MalVal

/-- `HashMap::insert` on the binding table (string keys). -/
def dataInsert : List (String × MalVal) → String → MalVal → List (String × MalVal)
  | [], k, v => [(k, v)]
  | (k', v') :: rest, k, v =>
    if k' = k then (k, v) :: rest else (k', v') :: dataInsert rest k v

def dataLookup (d : List (String × MalVal)) (key : String) : Option MalVal :=
  (d.find? (fun p => p.1 = key)).map (fun p => p.2)

def listModify {α : Type} (f : α → α) : Nat → List α → List α
  | _, [] => []
  | 0, x :: xs => f x :: xs
  | n + 1, x :: xs => x :: listModify f n xs

/-- `Env::set` (`env.rs` lines 64-66): writes through the shared handle. -/
def envSet (s : Interp) (id : Nat) (key : String) (v : MalVal) : Interp :=
  { s with envs := listModify (fun d => { d with data := dataInsert d.data key v }) id s.envs }

/-- `create_env` (`env.rs` lines 16-21): a fresh environment with the given
parent; the new handle is the previous store length. -/
def createEnv (s : Interp) (outer : Option Nat) : Nat × Interp :=
  (s.envs.length, { s with envs := s.envs ++ [⟨[], outer⟩] })

/-- `Env::find` (`env.rs` lines 68-77), walking the parent chain.  The gas
parameter is a model artifact bounding the walk; every environment created
by the interpreter has a parent with a strictly smaller index, so a gas of
`envs.length` always suffices. -/
def envFindGas : Nat → Interp → Nat → String → Option Nat
  | 0, _, _, _ => none
  | g + 1, s, id, key =>
    match s.envs.get? id with
    | none => none
    | some d =>
      if (dataLookup d.data key).isSome then some id
      else
        match d.outer with
        | some o => envFindGas g s o key
        | none => none

def envFind (s : Interp) (id : Nat) (key : String) : Option Nat :=
  envFindGas s.envs.length s id key

/-- `Env::get` (`env.rs` lines 79-83). -/
def envGet (s : Interp) (id : Nat) (key : String) : Res MalVal :=
  match envFind s id key with
  | some e => pure ((((s.envs.get? e).map EnvData.data).bind (fun d => dataLookup d key)).getD .nil)
  | none => throw (.mal (.undefinedSymbol key))

/-- Binding loop of `Env::with_binds` (`env.rs` lines 39-59).  `i` is the
position of the current name in the full `binds` list.  At the variadic
marker, `exprs[i..].to_vec()` is a Rust slice-range operation that panics
when `i > exprs.len()`. -/
def withBindsGo (exprs : List MalVal) : Interp → Nat → List String → Nat → Res Interp
  | s, _, [], _ => pure s
  | s, id, b :: rest, i =>
    if b = "&" then
      match rest with
      | [] => throw (.mal (.evaluation "Error in argument binding: no parameter after '&'"))
      | nm :: _ =>
        if i ≤ exprs.length then pure (envSet s id nm (.list (exprs.drop i)))
        else throw (.panic "slice start index out of range")
    else withBindsGo exprs (envSet s id b ((exprs.get? i).getD .nil)) id rest (i + 1)

/-- `Env::with_binds` (`env.rs` lines 32-62). -/
def withBinds (s : Interp) (outer : Option Nat) (binds : List String)
    (exprs : List MalVal) : Res (Nat × Interp) := do
  let (id, s') := createEnv s outer
  let s'' ← withBindsGo exprs s' id binds 0
  pure (id, s'')

/-! ## Equality (`types.rs`, `impl PartialEq`)

`MalValue` equality dereferences the `Rc` and compares `MalValueType`
structurally (`MalValueType` is not `Eq`, so `Rc` has no pointer fast
path).  `RustFunction` compares function pointer then environment;
`MalFunction` derives field-by-field comparison (body, parameters,
environment, macro flag, meta); environments compare their whole binding
tables recursively; there is no arm for two Atoms, which therefore fall to
the catch-all `false`.  The recursion through environments need not
terminate in Rust; the model charges one fuel unit per comparison step and
answers `none` when the budget runs out, so a comparison that is `none` at
every fuel diverges in Rust. -/

/-- Short-circuiting `&&` lifted to the three-valued result. -/
def andO : Option Bool → Option Bool → Option Bool
  | some false, _ => some false
  | some true, x => x
  | none, _ => none

/-- The comparison jobs of the mutually recursive `PartialEq` instances. -/
inductive EqTask where
  | val (v w : MalVal)
  | seq (a b : List MalVal)
  | entries (a whole : MapEntries)
  | env (i j : Nat)
  | data (d1 d2 : List (String × MalVal))
deriving Inhabited

def eqF : Nat → Interp → EqTask → Option Bool
  | 0, _, _ => none
  | f + 1, s, t =>
    match t with
    | .val v w =>
      match v, w with
      | .nil, .nil => some true
      | .tru, .tru => some true
      | .fls, .fls => some true
      | .num a, .num b => some (decide (a = b))
      | .sym a, .sym b => some (decide (a = b))
      | .str a, .str b => some (decide (a = b))
      | .keyword a, .keyword b => some (decide (a = b))
      | .list a, .list b => eqF f s (.seq a b)
      | .vect a, .vect b => eqF f s (.seq a b)
      | .list a, .vect b => eqF f s (.seq a b)
      | .vect a, .list b => eqF f s (.seq a b)
      | .mmap a, .mmap b =>
        andO (some (decide (a.length = b.length))) (eqF f s (.entries a b))
      | .rust n1 e1 _, .rust n2 e2 _ =>
        if n1 = n2 then eqF f s (.env e1 e2) else some false
      | .malf b1 p1 e1 m1 t1, .malf b2 p2 e2 m2 t2 =>
        andO (eqF f s (.val b1 b2))
          (if p1 = p2 then
            andO (eqF f s (.env e1 e2))
              (if m1 = m2 then eqF f s (.val t1 t2) else some false)
          else some false)
      | _, _ => some false
    | .seq a b =>
      match a, b with
      | [], [] => some true
      | x :: xs, y :: ys => andO (eqF f s (.val x y)) (eqF f s (.seq xs ys))
      | _, _ => some false
    | .entries a whole =>
      match a with
      | [] => some true
      | (hk, _, v) :: rest =>
        match whole.find? (fun e => e.1 = hk) with
        | some e => andO (eqF f s (.val v e.2.2)) (eqF f s (.entries rest whole))
        | none => some false
    | .env i j =>
      match s.envs.get? i, s.envs.get? j with
      | some d1, some d2 =>
        andO (andO (some (decide (d1.data.length = d2.data.length)))
                (eqF f s (.data d1.data d2.data)))
          (match d1.outer, d2.outer with
           | none, none => some true
           | some o1, some o2 => eqF f s (.env o1 o2)
           | _, _ => some false)
      | _, _ => some false
    | .data d1 d2 =>
      match d1 with
      | [] => some true
      | (k, v) :: rest =>
        match dataLookup d2 k with
        | some w => andO (eqF f s (.val v w)) (eqF f s (.data rest d2))
        | none => some false

/-- `MalValue == MalValue` (`types.rs` lines 177-199 together with the
derived instances), fuelled. -/
def malValueEq (f : Nat) (s : Interp) (v w : MalVal) : Option Bool :=
  eqF f s (.val v w)

/-! ## Reader (`reader.rs`)

The reader state (token vector plus cursor) is modelled by the list of
remaining tokens.  The fuel bounds the recursion depth; `read_str` passes
`2 * tokens + 2`, which always suffices since every recursive call either
consumes a token or follows one consumed token. -/

/-- The `{:?}` (Debug) rendering of the closing tokens, used in the
`read_seq` EOF message (only `RParen`, `RBracket` and `RCurly` ever occur
there). -/
def tokenDebugName : MalTokenType → String
  | .rParen => "RParen"
  | .rBracket => "RBracket"
  | .rCurly => "RCurly"
  | .lParen => "LParen"
  | .lBracket => "LBracket"
  | .lCurly => "LCurly"
  | _ => "Token"

/-- `read_atom` (`reader.rs` lines 105-120). -/
def readAtom : List MalTokenType → Res (MalVal × List MalTokenType)
  | [] => throw (.mal (.parser "Unexpected EOF"))
  | t :: rest =>
    match t with
    | .nilTok => pure (.nil, rest)
    | .trueTok => pure (.tru, rest)
    | .falseTok => pure (.fls, rest)
    | .numberTok v => pure (.num v, rest)
    | .symbolTok v => pure (.sym v, rest)
    | .strTok v => pure (.str v, rest)
    | .keywordTok v => pure (.keyword v, rest)
    | _ => throw (.mal (.parser "Unexpected token"))

mutual

/-- `read_form` (`reader.rs` lines 47-64). -/
def readForm : Nat → List MalTokenType → Res (MalVal × List MalTokenType)
  | 0, _ => throw .fuel
  | f + 1, toks =>
    match toks.head? with
    | none => throw (.mal (.parser "Unexpected EOF"))
    | some .lParen => do
      let (xs, rest) ← readSeq f .rParen toks
      pure (.list xs, rest)
    | some .lBracket => do
      let (xs, rest) ← readSeq f .rBracket toks
      pure (.vect xs, rest)
    | some .lCurly => do
      let (xs, rest) ← readSeq f .rCurly toks
      pure (.mmap (← mapFromArguments xs), rest)
    | some .atSign => readShortForm f "deref" toks
    | some .singleQuote => readShortForm f "quote" toks
    | some .backTick => readShortForm f "quasiquote" toks
    | some .tilde => readShortForm f "unquote" toks
    | some .tildeAtSign => readShortForm f "splice-unquote" toks
    | some .caret => readWithMeta f toks
    | some _ => readAtom toks

/-- `read_seq` (`reader.rs` lines 83-103): drop the opening token, then
collect forms until the closing token. -/
def readSeq (f : Nat) (endTok : MalTokenType) (toks : List MalTokenType) :
    Res (List MalVal × List MalTokenType) :=
  readSeqGo f endTok toks.tail []

def readSeqGo : Nat → MalTokenType → List MalTokenType → List MalVal →
    Res (List MalVal × List MalTokenType)
  | 0, _, _, _ => throw .fuel
  | f + 1, endTok, toks, acc =>
    match toks.head? with
    | none =>
      throw (.mal (.parser ("Expected '" ++ tokenDebugName endTok ++ "', got EOF")))
    | some t =>
      if t = endTok then pure (acc, toks.tail)
      else do
        let (v, rest) ← readForm f toks
        readSeqGo f endTok rest (acc ++ [v])

/-- `read_short_form` (`reader.rs` lines 122-129). -/
def readShortForm (f : Nat) (name : String) (toks : List MalTokenType) :
    Res (MalVal × List MalTokenType) := do
  let (v, rest) ← readForm f toks.tail
  pure (.list [.sym name, v], rest)

/-- `read_with_meta` (`reader.rs` lines 131-142): `^m v` would read `m` then
`v` and build `(with-meta v m)` (unreachable, since the tokenizer never
produces a `Caret` token). -/
def readWithMeta (f : Nat) (toks : List MalTokenType) :
    Res (MalVal × List MalTokenType) := do
  let (meta, r1) ← readForm f toks.tail
  let (arg, r2) ← readForm f r1
  pure (.list [.sym "with-meta", arg, meta], r2)

end

/-- `read_str` (`reader.rs` lines 29-45). -/
def readStr (program : String) : Res MalVal := do
  let tokens ← tokenize program
  if tokens.isEmpty then throw (.mal .emptyProgram)
  let (v, rest) ← readForm (2 * tokens.length + 2) tokens
  if rest.isEmpty then pure v
  else throw (.mal (.parser "Expected EOF, found token"))

/-! ## Printer (`printer.rs`)

Fuelled because printing an atom dereferences the shared cell, which can be
cyclic.  The `Number` arm models `f64::to_string` for values the claims
exercise: integral values print as their integer numeral (the shortest
decimal rendering of non-integral doubles is outside the model). -/

/-- `escape_string` (`printer.rs` lines 30-45), on character lists. -/
def escapeChars : List Char → List Char
  | [] => []
  | c :: rest =>
    if c = cBackslash then cBackslash :: cBackslash :: escapeChars rest
    else if c = cNewline then cBackslash :: 'n' :: escapeChars rest
    else if c = cDQuote then cBackslash :: cDQuote :: escapeChars rest
    else c :: escapeChars rest

def escapeString (text : String) : String :=
  String.mk (cDQuote :: escapeChars text.data ++ [cDQuote])

/-- Model of `f64` `Display` (`val.to_string()`).  Exact for integral
values; non-integral rationals fall back to a `num/den` rendering (model
boundary, never reached by the claims settled here). -/
def numToString (q : Rat) : String :=
  if q.den = 1 then toString q.num
  else toString q.num ++ "/" ++ toString q.den

/-- The joining step of `pr_seq` (`printer.rs` lines 47-51). -/
def prJoin (parts : List String) (first last : String) : String :=
  first ++ String.intercalate " " parts ++ last

mutual

/-- `pr_str` (`printer.rs` lines 6-28). -/
def prStrF : Nat → Interp → Bool → MalVal → Option String
  | 0, _, _, _ => none
  | f + 1, s, readably, v =>
    match v with
    | .nil => some "nil"
    | .tru => some "true"
    | .fls => some "false"
    | .num q => some (numToString q)
    | .sym x => some x
    | .str x => some (if readably then escapeString x else x)
    | .keyword x => some (":" ++ x)
    | .list xs => (prListF f s readably xs).map (fun parts => prJoin parts "(" ")")
    | .vect xs => (prListF f s readably xs).map (fun parts => prJoin parts "[" "]")
    | .mmap m =>
      (prListF f s readably (m.foldr (fun e acc => e.2.1 :: e.2.2 :: acc) [])).map
        (fun parts => prJoin parts "\x7b" "\x7d")
    | .rust _ _ _ => some "#<rust_function>"
    | .malf _ _ _ _ _ => some "#<function>"
    | .atom id =>
      (prStrF f s readably ((s.atoms.get? id).getD .nil)).map
        (fun inner => "(atom " ++ inner ++ ")")

/-- Element-wise rendering inside `pr_seq`. -/
def prListF : Nat → Interp → Bool → List MalVal → Option (List String)
  | 0, _, _, _ => none
  | f + 1, s, readably, xs =>
    match xs with
    | [] => some []
    | x :: rest => do
      let h ← prStrF f s readably x
      let t ← prListF f s readably rest
      some (h :: t)

end

/-! ## Evaluator (`bin/step7_quote.rs`) and built-ins (`core.rs`)

The evaluator is the trampoline of `step7_quote.rs`: `eval` keeps a current
ast and environment and loops; special forms and function application
produce a verdict, either `Return` or `TailCall`.

The model separates the two resources of the Rust program:

* `steps` — trampoline iterations (time).  Each `evalLoop` iteration
  consumes one step; exhaustion is `EErr.steps`.
* fuel — nesting of host stack frames.  The functions of one nesting level
  are bundled in a `Level`; `mkLevel (f + 1)` builds them on top of
  `mkLevel f`, and every re-entry into `eval` (argument evaluation, `def!`
  right-hand sides, `if` tests, built-ins calling back into the evaluator)
  happens one level down.  A `TailCall` continues the loop at the same
  level, which is exactly the tail-call property: exhaustion of the levels
  is `EErr.fuel` and models an overflow of the host call stack.
-/

instance : Inhabited MalVal := ⟨.nil⟩

/-- `ApplyOkResult` (`step7_quote.rs` lines 104-107). -/
inductive ApplyOk where
  | ret (v : MalVal)
  | tailCall (ast : MalVal) (envId : Nat)

/-- One host-stack level of the mutually recursive entry points: `eval`,
rust-function invocation, and `core_apply`. -/
structure Level where
  lvl : Nat
  evalFn : Nat → MalVal → Nat → Interp → Res (MalVal × Interp)
  applyRustFn : Nat → String → List MalVal → Nat → Interp → Res (MalVal × Interp)
  coreApplyFn : Nat → MalVal → List MalVal → Interp → Res (MalVal × Interp)

/-- `MalValue::is_function` (`types.rs` lines 112-118). -/
def isFunction : MalVal → Bool
  | .rust _ _ _ => true
  | .malf _ _ _ mf _ => !mf
  | _ => false

/-- `arg_count_eq` (`core.rs` lines 87-98). -/
def argCountEq (args : List MalVal) (expected : Nat) : Res Unit :=
  if args.length ≠ expected then
    throw (.mal (.rustFunction ("Expected " ++ toString expected ++ " argument" ++
      (if expected = 1 then "" else "s") ++ ", got " ++ toString args.length)))
  else pure ()

/-- `arg_count_gte` (`core.rs` lines 100-111). -/
def argCountGte (args : List MalVal) (minArgs : Nat) : Res Unit :=
  if args.length < minArgs then
    throw (.mal (.rustFunction ("Expected at least " ++ toString minArgs ++ " argument" ++
      (if minArgs = 1 then "" else "s") ++ ", got " ++ toString args.length)))
  else pure ()

/-- `get_number_arg` (`core.rs` lines 113-121). -/
def getNumberArg : MalVal → Res Rat
  | .num n => pure n
  | _ => throw (.mal (.rustFunction "Argument must be a number"))

/-- The `index as usize` cast in `nth` (`core.rs` line 231): an `f64`-to-
`usize` cast saturates, truncating toward zero, sending negative values to
`0` and values beyond `usize::MAX` to `usize::MAX`. -/
def f64ToUsize (q : Rat) : Nat :=
  if q < 0 then 0 else min q.floor.toNat (2 ^ 64 - 1)

/-- `MalValue::new_boolean` (`types.rs` lines 26-32). -/
def newBoolean (b : Bool) : MalVal := if b then .tru else .fls

/-- `pr_strs` (`core.rs` lines 305-307), with the print fuel taken from the
current level (a cyclic atom makes Rust recurse without bound). -/
def renderAll (f : Nat) (s : Interp) (readably : Bool) : List MalVal → Res (List String)
  | [] => pure []
  | x :: rest => do
    match prStrF f s readably x with
    | some r => do pure (r :: (← renderAll f s readably rest))
    | none => throw .fuel

/-- Element-wise evaluation: `eval_ast_seq` (`step7_quote.rs` lines 166-168). -/
def evalAstSeq (L : Level) (st : Nat) : List MalVal → Nat → Interp → Res (List MalVal × Interp)
  | [], _, s => pure ([], s)
  | x :: xs, e, s => do
    let (v, s1) ← L.evalFn st x e s
    let (vs, s2) ← evalAstSeq L st xs e s1
    pure (v :: vs, s2)

/-- The flattening loop of `eval_map` (`step7_quote.rs` lines 170-179):
keys unchanged, values evaluated, producing the argument list handed to
`MalMap::from_arguments`. -/
def evalMapArgs (L : Level) (st : Nat) : MapEntries → Nat → Interp → Res (List MalVal × Interp)
  | [], _, s => pure ([], s)
  | (_, k, v) :: rest, e, s => do
    let (w, s1) ← L.evalFn st v e s
    let (ws, s2) ← evalMapArgs L st rest e s1
    pure (k :: w :: ws, s2)

/-- `eval_ast` (`step7_quote.rs` lines 156-164). -/
def evalAst (L : Level) (st : Nat) (ast : MalVal) (e : Nat) (s : Interp) :
    Res (MalVal × Interp) :=
  match ast with
  | .sym name => do pure (← envGet s e name, s)
  | .list xs => do
    let (vs, s1) ← evalAstSeq L st xs e s
    pure (.list vs, s1)
  | .vect xs => do
    let (vs, s1) ← evalAstSeq L st xs e s
    pure (.vect vs, s1)
  | .mmap m => do
    let (flat, s1) ← evalMapArgs L st m e s
    let ents ← mapFromArguments flat
    pure (.mmap ents, s1)
  | other => pure (other, s)

/-- `apply_ast` (`step7_quote.rs` lines 181-210): evaluate all elements,
then apply the head.  A `RustFunc` is invoked with its captured environment
(`rust_function.env.clone()`) — not the call-site environment — and yields
`Return`; a `MalFunc` builds the binding environment on its captured
environment and yields `TailCall` on its body. -/
def applyEvaluated (L : Level) (st : Nat) (ev : MalVal) (s1 : Interp) :
    Res (ApplyOk × Interp) :=
  match ev with
  | .list [] => throw (.panic "Evaluation of non-empty list resulted in empty list.")
  | .list (h :: args) =>
    match h with
    | .rust name envId _ => do
      let (v, s2) ← L.applyRustFn st name args envId s1
      pure (.ret v, s2)
    | .malf body params envId _ _ => do
      let (newId, s2) ← withBinds s1 (some envId) params args
      pure (.tailCall body newId, s2)
    | _ => throw (.mal (.evaluation "First element of a list must evaluate to a function."))
  | _ => throw (.panic "Evaluation of list resulted in non-list")

def applyAst (L : Level) (st : Nat) (ast : MalVal) (e : Nat) (s : Interp) :
    Res (ApplyOk × Interp) := do
  let (ev, s1) ← evalAst L st ast e s
  applyEvaluated L st ev s1

/-- `apply_special_form_def` (`step7_quote.rs` lines 212-233). -/
def applyDef (L : Level) (st : Nat) (args : List MalVal) (e : Nat) (s : Interp) :
    Res (ApplyOk × Interp) :=
  match args with
  | [a0, a1] =>
    match a0 with
    | .sym name => do
      let (v, s1) ← L.evalFn st a1 e s
      pure (.ret v, envSet s1 e name v)
    | _ => throw (.mal (.specialForm "def! first argument must be a valid symbol name"))
  | _ => throw (.mal (.specialForm ("def! expected 2 arguments, got " ++ toString args.length)))

/-- The binding loop of `apply_special_form_let` (`step7_quote.rs` lines
258-270); the bindings list has even length when it is entered, so the
one-element case is unreachable. -/
def letLoop (L : Level) (st : Nat) (innerId : Nat) : List MalVal → Interp → Res Interp
  | [], s => pure s
  | b :: expr :: rest, s =>
    match b with
    | .sym name => do
      let (v, s1) ← L.evalFn st expr innerId s
      letLoop L st innerId rest (envSet s1 innerId name v)
    | _ =>
      throw (.mal (.specialForm
        "let* odd numbered elements of binding list must be valid symbol names"))
  | [_], _ => throw (.panic "unreachable: odd let* bindings")

/-- `apply_special_form_let` (`step7_quote.rs` lines 235-273). -/
def applyLet (L : Level) (st : Nat) (args : List MalVal) (e : Nat) (s : Interp) :
    Res (ApplyOk × Interp) :=
  match args with
  | [a0, a1] => do
    let bindings ←
      (match a0 with
       | .list bs => pure bs
       | .vect bs => pure bs
       | _ => throw (.mal (.specialForm "let* first argument must be a list or a vector")))
    if bindings.length % 2 ≠ 0 then
      throw (.mal (.specialForm "let* bindings list must have an even number of elements"))
    else do
      let (innerId, s1) := createEnv s (some e)
      let s2 ← letLoop L st innerId bindings s1
      pure (.tailCall a1 innerId, s2)
  | _ => throw (.mal (.specialForm ("let* expected 2 arguments, got " ++ toString args.length)))

/-- The parameter-name extraction of `apply_special_form_fn`
(`step7_quote.rs` lines 290-301); the error message's `fn*!` typo is the
source's. -/
def fnParams : List MalVal → Res (List String)
  | [] => pure []
  | .sym name :: rest => do pure (name :: (← fnParams rest))
  | _ :: _ =>
    throw (.mal (.specialForm "fn*! first argument must be a sequence of valid symbol names"))

/-- `apply_special_form_fn` (`step7_quote.rs` lines 275-308).  The
constructed `MalFunction` is a plain function (macro flag clear, `Nil`
meta, per `MalValue::new_mal_func`). -/
def applyFn (args : List MalVal) (e : Nat) (s : Interp) : Res (ApplyOk × Interp) :=
  match args with
  | [a0, a1] => do
    let bindings ←
      (match a0 with
       | .list bs => pure bs
       | .vect bs => pure bs
       | _ => throw (.mal (.specialForm "fn* first argument must be a list or a vector")))
    let params ← fnParams bindings
    pure (.ret (.malf a1 params e false .nil), s)
  | _ => throw (.mal (.specialForm ("fn* expected 2 arguments, got " ++ toString args.length)))

/-- The init-expression loop of `apply_special_form_do`. -/
def doLoop (L : Level) (st : Nat) (e : Nat) : List MalVal → Interp → Res Interp
  | [], s => pure s
  | x :: xs, s => do
    let (_, s1) ← L.evalFn st x e s
    doLoop L st e xs s1

/-- `apply_special_form_do` (`step7_quote.rs` lines 310-320). -/
def applyDo (L : Level) (st : Nat) (args : List MalVal) (e : Nat) (s : Interp) :
    Res (ApplyOk × Interp) :=
  match args with
  | [] => pure (.ret .nil, s)
  | _ => do
    let s1 ← doLoop L st e (args.take (args.length - 1)) s
    pure (.tailCall ((args.getLast?).getD .nil) e, s1)

/-- `apply_special_form_if` (`step7_quote.rs` lines 322-342). -/
def applyIf (L : Level) (st : Nat) (args : List MalVal) (e : Nat) (s : Interp) :
    Res (ApplyOk × Interp) :=
  match args with
  | [c, th] => do
    let (t, s1) ← L.evalFn st c e s
    match t with
    | .fls => pure (.ret .nil, s1)
    | .nil => pure (.ret .nil, s1)
    | _ => pure (.tailCall th e, s1)
  | [c, th, el] => do
    let (t, s1) ← L.evalFn st c e s
    match t with
    | .fls => pure (.tailCall el e, s1)
    | .nil => pure (.tailCall el e, s1)
    | _ => pure (.tailCall th e, s1)
  | _ => throw (.mal (.specialForm ("if expected 2 or 3 arguments, got " ++ toString args.length)))

/-- `apply_special_form_quote` (`step7_quote.rs` lines 344-353). -/
def applyQuote (args : List MalVal) (s : Interp) : Res (ApplyOk × Interp) :=
  match args with
  | [a] => pure (.ret a, s)
  | _ => throw (.mal (.specialForm ("quote expects 1 argument, got " ++ toString args.length)))

/-- The arithmetic skeleton `eval_arithmetic_operation` (`core.rs` lines
139-146); division is exact rational division (model boundary for the
IEEE-754 special cases). -/
def evalArith (args : List MalVal) (op : Rat → Rat → Rat) : Res MalVal := do
  argCountEq args 2
  let a ← getNumberArg ((args.get? 0).getD .nil)
  let b ← getNumberArg ((args.get? 1).getD .nil)
  pure (.num (op a b))

/-- The numeric comparison skeleton of `lt`/`lte`/`gt`/`gte` (`core.rs`
lines 269-303). -/
def evalCompare (args : List MalVal) (op : Rat → Rat → Bool) : Res MalVal := do
  argCountEq args 2
  let a ← getNumberArg ((args.get? 0).getD .nil)
  let b ← getNumberArg ((args.get? 1).getD .nil)
  pure (newBoolean (op a b))

/-- `concat`'s accumulation loop (`core.rs` lines 177-190). -/
def concatLoop : List MalVal → List MalVal → Res (List MalVal)
  | acc, [] => pure acc
  | acc, a :: rest =>
    match a with
    | .list xs => concatLoop (acc ++ xs) rest
    | .vect xs => concatLoop (acc ++ xs) rest
    | _ => throw (.mal (.rustFunction "Invalid argument"))

/-- `map`'s element loop (`core.rs` lines 490-507), applying via
`core_apply`. -/
def mapLoop (L : Level) (st : Nat) (fv : MalVal) : List MalVal → Interp → Res (List MalVal × Interp)
  | [], s => pure ([], s)
  | x :: xs, s => do
    let (r, s1) ← L.coreApplyFn st fv [x] s
    let (rs, s2) ← mapLoop L st fv xs s1
    pure (r :: rs, s2)

/-- The built-in dispatch: each arm is the rust function registered under
that name in `core::ns` (`core.rs` lines 12-55); the argument `e` is the
environment handle passed by the caller (always the function's captured
environment, see `apply_ast` and `core_apply`). -/
def applyRustGo (L : Level) (st : Nat) (name : String) (args : List MalVal) (e : Nat)
    (s : Interp) : Res (MalVal × Interp) :=
  if name = "+" then do pure (← evalArith args (· + ·), s)
  else if name = "-" then do pure (← evalArith args (· - ·), s)
  else if name = "*" then do pure (← evalArith args (· * ·), s)
  else if name = "/" then do pure (← evalArith args (· / ·), s)
  else if name = "prn" then do
    let _ ← renderAll L.lvl s true args
    pure (.nil, s)
  else if name = "println" then do
    let _ ← renderAll L.lvl s false args
    pure (.nil, s)
  else if name = "pr-str" then do
    pure (.str (String.intercalate " " (← renderAll L.lvl s true args)), s)
  else if name = "str" then do
    pure (.str (String.join (← renderAll L.lvl s false args)), s)
  else if name = "list" then pure (.list args, s)
  else if name = "list?" then do
    argCountEq args 1
    match (args.get? 0).getD .nil with
    | .list _ => pure (.tru, s)
    | _ => pure (.fls, s)
  else if name = "cons" then do
    argCountEq args 2
    match (args.get? 1).getD .nil with
    | .list xs => pure (.list ((args.get? 0).getD .nil :: xs), s)
    | .vect xs => pure (.list ((args.get? 0).getD .nil :: xs), s)
    | _ => throw (.mal (.rustFunction "Invalid 2nd argument"))
  else if name = "concat" then do
    pure (.list (← concatLoop [] args), s)
  else if name = "empty?" then do
    argCountEq args 1
    match (args.get? 0).getD .nil with
    | .list xs => pure (newBoolean xs.isEmpty, s)
    | .vect xs => pure (newBoolean xs.isEmpty, s)
    | .str v => pure (newBoolean (v.utf8ByteSize = 0), s)
    | _ => throw (.mal (.rustFunction "Invalid argument"))
  else if name = "count" then do
    argCountEq args 1
    match (args.get? 0).getD .nil with
    | .list xs => pure (.num xs.length, s)
    | .vect xs => pure (.num xs.length, s)
    | .str v => pure (.num v.utf8ByteSize, s)
    | .nil => pure (.num 0, s)
    | _ => throw (.mal (.rustFunction "Invalid argument"))
  else if name = "nth" then do
    argCountEq args 2
    let idx ← getNumberArg ((args.get? 1).getD .nil)
    match (args.get? 0).getD .nil with
    | .list xs =>
      match xs.get? (f64ToUsize idx) with
      | some v => pure (v, s)
      | none => throw (.mal (.rustFunction "nth: index out of range"))
    | .vect xs =>
      match xs.get? (f64ToUsize idx) with
      | some v => pure (v, s)
      | none => throw (.mal (.rustFunction "nth: index out of range"))
    | _ => throw (.mal (.rustFunction "Invalid argument"))
  else if name = "first" then do
    argCountEq args 1
    match (args.get? 0).getD .nil with
    | .list xs => pure (xs.headD .nil, s)
    | .vect xs => pure (xs.headD .nil, s)
    | .nil => pure (.nil, s)
    | _ => throw (.mal (.rustFunction "Invalid argument"))
  else if name = "rest" then do
    argCountEq args 1
    match (args.get? 0).getD .nil with
    | .list xs => pure (.list xs.tail, s)
    | .vect xs => pure (.list xs.tail, s)
    | .nil => pure (.list [], s)
    | _ => throw (.mal (.rustFunction "Invalid argument"))
  else if name = "=" then do
    argCountEq args 2
    match malValueEq L.lvl s ((args.get? 0).getD .nil) ((args.get? 1).getD .nil) with
    | some b => pure (newBoolean b, s)
    | none => throw .fuel
  else if name = "<" then do pure (← evalCompare args (· < ·), s)
  else if name = "<=" then do pure (← evalCompare args (· ≤ ·), s)
  else if name = ">" then do pure (← evalCompare args (fun a b => b < a), s)
  else if name = ">=" then do pure (← evalCompare args (fun a b => b ≤ a), s)
  else if name = "read-string" then do
    argCountEq args 1
    match (args.get? 0).getD .nil with
    | .str v => do pure (← readStr v, s)
    | _ =>
      throw (.mal (.rustFunction "read_string expects argument to be of type String"))
  else if name = "slurp" then do
    argCountEq args 1
    match (args.get? 0).getD .nil with
    | .str _ => throw (.mal (.rustFunction "slurp: io error"))
    | _ => throw (.mal (.rustFunction "slurp expects argument to be of type String"))
  else if name = "eval" then do
    argCountEq args 1
    L.evalFn st ((args.get? 0).getD .nil) e s
  else if name = "atom" then do
    argCountEq args 1
    pure (.atom s.atoms.length, { s with atoms := s.atoms ++ [(args.get? 0).getD .nil] })
  else if name = "atom?" then do
    argCountEq args 1
    match (args.get? 0).getD .nil with
    | .atom _ => pure (.tru, s)
    | _ => pure (.fls, s)
  else if name = "deref" then do
    argCountEq args 1
    match (args.get? 0).getD .nil with
    | .atom id => pure ((s.atoms.get? id).getD .nil, s)
    | _ => throw (.mal (.rustFunction "Invalid argument. Expected atom."))
  else if name = "reset!" then do
    argCountEq args 2
    match (args.get? 0).getD .nil with
    | .atom id =>
      pure ((args.get? 1).getD .nil,
        { s with atoms := listModify (fun _ => (args.get? 1).getD .nil) id s.atoms })
    | _ => throw (.mal (.rustFunction "Invalid argument. Expected atom."))
  else if name = "swap!" then do
    argCountGte args 2
    match (args.get? 0).getD .nil with
    | .atom id => do
      let fv := (args.get? 1).getD .nil
      if isFunction fv then do
        let applyArgs := ((s.atoms.get? id).getD .nil) :: args.drop 2
        let (result, s1) ← L.coreApplyFn st fv applyArgs s
        pure (result, { s1 with atoms := listModify (fun _ => result) id s1.atoms })
      else throw (.mal (.rustFunction "Invalid 2nd argument. Expected function."))
    | _ => throw (.mal (.rustFunction "Invalid 1st argument. Expected atom."))
  else if name = "throw" then do
    argCountGte args 1
    throw (.mal (.exception ((args.get? 0).getD .nil)))
  else if name = "nil?" then do
    argCountEq args 1
    match (args.get? 0).getD .nil with
    | .nil => pure (newBoolean true, s)
    | _ => pure (newBoolean false, s)
  else if name = "true?" then do
    argCountEq args 1
    match (args.get? 0).getD .nil with
    | .tru => pure (newBoolean true, s)
    | _ => pure (newBoolean false, s)
  else if name = "false?" then do
    argCountEq args 1
    match (args.get? 0).getD .nil with
    | .fls => pure (newBoolean true, s)
    | _ => pure (newBoolean false, s)
  else if name = "symbol?" then do
    argCountEq args 1
    match (args.get? 0).getD .nil with
    | .sym _ => pure (newBoolean true, s)
    | _ => pure (newBoolean false, s)
  else if name = "symbol" then do
    argCountEq args 1
    match (args.get? 0).getD .nil with
    | .str v => pure (.sym v, s)
    | _ => throw (.mal (.rustFunction "Argument must be a string."))
  else if name = "keyword?" then do
    argCountEq args 1
    match (args.get? 0).getD .nil with
    | .keyword _ => pure (newBoolean true, s)
    | _ => pure (newBoolean false, s)
  else if name = "keyword" then do
    argCountEq args 1
    match (args.get? 0).getD .nil with
    | .str v => pure (.keyword v, s)
    | _ => throw (.mal (.rustFunction "Argument must be a string."))
  else if name = "apply" then do
    argCountGte args 2
    match (args.getLast?).getD .nil with
    | .list lastArgs =>
      L.coreApplyFn st ((args.get? 0).getD .nil) ((args.drop 1).take (args.length - 2) ++ lastArgs) s
    | .vect lastArgs =>
      L.coreApplyFn st ((args.get? 0).getD .nil) ((args.drop 1).take (args.length - 2) ++ lastArgs) s
    | _ =>
      throw (.mal (.rustFunction "Invalid argument. Last argument of apply must be a list or vector."))
  else if name = "map" then do
    argCountEq args 2
    match (args.get? 1).getD .nil with
    | .list xs => do
      let (rs, s1) ← mapLoop L st ((args.get? 0).getD .nil) xs s
      pure (.list rs, s1)
    | .vect xs => do
      let (rs, s1) ← mapLoop L st ((args.get? 0).getD .nil) xs s
      pure (.list rs, s1)
    | _ =>
      throw (.mal (.rustFunction "Invalid argument. Second argument of map must be a list or vector."))
  else throw (.panic "unknown rust function pointer")

/-- `core_apply` (`core.rs` lines 73-85): a `RustFunc` is invoked with its
captured environment, a `MalFunc` gets a binding environment and its body
evaluated via the evaluator. -/
def coreApplyGo (L : Level) (st : Nat) (fv : MalVal) (args : List MalVal) (s : Interp) :
    Res (MalVal × Interp) :=
  match fv with
  | .rust name envId _ => L.applyRustFn st name args envId s
  | .malf body params envId _ _ => do
    let (id, s1) ← withBinds s (some envId) params args
    L.evalFn st body id s1
  | _ => throw (.mal (.rustFunction "Expected function."))

/-- The trampoline loop of `eval` (`step7_quote.rs` lines 111-154).  One
iteration per step; a `TailCall` verdict replaces the current ast and
environment and continues at the same level. -/
def evalLoop (L : Level) : Nat → MalVal → Nat → Interp → Res (MalVal × Interp)
  | 0, _, _, _ => throw .steps
  | st + 1, ast, e, s =>
    match ast with
    | .list [] => pure (ast, s)
    | .list (first :: sfArgs) => do
      let (r, s1) ←
        (match first with
         | .sym nm =>
           if nm = "def!" then applyDef L st sfArgs e s
           else if nm = "let*" then applyLet L st sfArgs e s
           else if nm = "fn*" then applyFn sfArgs e s
           else if nm = "do" then applyDo L st sfArgs e s
           else if nm = "if" then applyIf L st sfArgs e s
           else if nm = "quote" then applyQuote sfArgs s
           else applyAst L st ast e s
         | _ => applyAst L st ast e s)
      match r with
      | .ret v => pure (v, s1)
      | .tailCall a e' => evalLoop L st a e' s1
    | _ => evalAst L st ast e s

/-- The bottom of the level tower: any re-entry at depth 0 models host
stack exhaustion. -/
def bottomLevel : Level where
  lvl := 0
  evalFn := fun _ _ _ _ => throw .fuel
  applyRustFn := fun _ _ _ _ _ => throw .fuel
  coreApplyFn := fun _ _ _ _ => throw .fuel

/-- Build the tower of host-stack levels. -/
def mkLevel : Nat → Level
  | 0 => bottomLevel
  | f + 1 =>
    let L := mkLevel f
    { lvl := f + 1
      evalFn := fun st ast e s => evalLoop L st ast e s
      applyRustFn := fun st name args e s => applyRustGo L st name args e s
      coreApplyFn := fun st fv args s => coreApplyGo L st fv args s }

/-- `eval` (`step7_quote.rs` lines 111-154) with explicit budgets: `fuel`
bounds the host-stack depth, `steps` the trampoline iterations. -/
def evalTop (fuel steps : Nat) (ast : MalVal) (e : Nat) (s : Interp) :
    Res (MalVal × Interp) :=
  (mkLevel fuel).evalFn steps ast e s

/-! ## Root environment (`create_root_env`, `step7_quote.rs` lines 28-55) -/

/-- The binding names of `core::ns` (`core.rs` lines 12-55), in source
order.  Each maps to a `RustFunc` holding the corresponding function
pointer and the root environment. -/
def nsNames : List String :=
  ["+", "-", "*", "/", "prn", "println", "pr-str", "str", "list", "list?",
   "cons", "concat", "empty?", "count", "nth", "first", "rest", "=", "<",
   "<=", ">", ">=", "read-string", "slurp", "eval", "atom", "atom?",
   "deref", "reset!", "swap!", "throw", "nil?", "true?", "false?",
   "symbol?", "symbol", "keyword?", "keyword", "apply", "map"]

/-- `rep` (`step7_quote.rs` lines 90-94): read, evaluate, print. -/
def repM (fuel steps : Nat) (src : String) (e : Nat) (s : Interp) : Res (String × Interp) := do
  let ast ← readStr src
  let (v, s1) ← evalTop fuel steps ast e s
  match prStrF fuel s1 true v with
  | some out => pure (out, s1)
  | none => throw .fuel

/-- `create_root_env` (`step7_quote.rs` lines 28-55): a fresh environment,
`*ARGV*` from the third CLI argument on, the `core::ns` bindings (each
capturing the root environment), then the `not` and `load-file`
definitions evaluated from source. -/
def createRootEnv (cliArgs : List String) : Res Interp := do
  let s0 : Interp := { envs := [⟨[], none⟩], atoms := [] }
  let s1 := envSet s0 0 "*ARGV*" (.list ((cliArgs.drop 2).map .str))
  let s2 := nsNames.foldl (fun s name => envSet s 0 name (.rust name 0 .nil)) s1
  let (_, s3) ← repM 20 300 "(def! not (fn* (a) (if a false true)))" 0 s2
  let (_, s4) ← repM 20 300
    "(def! load-file (fn* (f) (eval (read-string (str \"(do \" (slurp f) \")\")))))" 0 s3
  pure s4

/-! ## Concrete fixtures shared by the claim theorems -/

/-- The empty store. -/
def emptyInterp : Interp := { envs := [], atoms := [] }

/-- A store holding a single atom (containing `Nil`). -/
def oneAtomInterp : Interp := { envs := [], atoms := [.nil] }

/-- A store whose single environment binds `+` to the `+` built-in capturing
that same environment — the shape every root environment has. -/
def funcEnvInterp : Interp :=
  { envs := [⟨[("+", .rust "+" 0 .nil)], none⟩], atoms := [] }

/-- A store with one empty environment. -/
def oneEmptyEnvInterp : Interp := { envs := [⟨[], none⟩], atoms := [] }

/-- The spec's §8 scenario, run end to end through the model: after
`(def! a 1)`, calling `((fn* [] (def! a 2)))` returns `2` but leaves the
top-level `a` at `1`, while `((fn* [] (eval (read-string "(def! a 3)"))))`
returns `3` and changes the top-level `a` to `3`. -/
def c5Run : Res (List MalVal) := do
  let s0 ← createRootEnv []
  let a1 ← readStr ("(def! a 1)")
  let (v1, s1) ← evalTop 20 400 a1 0 s0
  let g1 ← envGet s1 0 "a"
  let a2 ← readStr ("((fn* [] (def! a 2)))")
  let (v2, s2) ← evalTop 20 400 a2 0 s1
  let g2 ← envGet s2 0 "a"
  let a3 ← readStr ("((fn* [] (eval (read-string \"(def! a 3)\"))))")
  let (v3, s3) ← evalTop 20 400 a3 0 s2
  let g3 ← envGet s3 0 "a"
  pure [v1, g1, v2, g2, v3, g3]

/-- Values built only from data constructors: no atoms, no functions.
Hash-map entries additionally carry the no-duplicate-hash-key invariant
that every map built by `MalMap` maintains. -/
inductive PureVal : MalVal → Prop where
  | nilP : PureVal .nil
  | truP : PureVal .tru
  | flsP : PureVal .fls
  | numP (q : Rat) : PureVal (.num q)
  | symP (x : String) : PureVal (.sym x)
  | strP (x : String) : PureVal (.str x)
  | keywordP (x : String) : PureVal (.keyword x)
  | listP (xs : List MalVal) : (∀ x ∈ xs, PureVal x) → PureVal (.list xs)
  | vectP (xs : List MalVal) : (∀ x ∈ xs, PureVal x) → PureVal (.vect xs)
  | mmapP (m : MapEntries) : (m.map (fun e => e.1)).Nodup →
      (∀ e ∈ m, PureVal e.2.2) → PureVal (.mmap m)

/-- The key/value pairs of an argument sequence, in order. -/
def pairsOf : List MalVal → List (MalVal × MalVal)
  | k :: v :: rest => (k, v) :: pairsOf rest
  | _ => []

/-- Specification-side description (for comparison with the code): the
value paired with the last occurrence of the hash key `hk` in the
argument sequence. -/
def lastHk (args : List MalVal) (hk : String) : Option MalVal :=
  (pairsOf args).foldl (fun acc p => if mapKeyStr p.1 = some hk then some p.2 else acc) none

/-- Specification-side description: the value paired with the last
occurrence of `key` (same variant, same text) in the argument sequence. -/
def lastPairValue (args : List MalVal) (key : MalVal) : Option MalVal :=
  match mapKeyStr key with
  | none => none
  | some hk => lastHk args hk

/-- Entry lookup by hash key. -/
def getValHk (m : MapEntries) (hk : String) : Option MalVal :=
  (m.find? (fun e => e.1 = hk)).map (fun e => e.2.2)

/-- The countdown body `(if (= n 0) :done (f (- n 1)))`. -/
def cdTest : MalVal := .list [.sym "=", .sym "n", .num 0]

def cdDec : MalVal := .list [.sym "-", .sym "n", .num 1]

def cdSelf : MalVal := .list [.sym "f", cdDec]

def cdBody : MalVal := .list [.sym "if", cdTest, .keyword "done", cdSelf]

/-- The countdown closure: parameters `[n]`, capturing environment 0. -/
def cdClosure : MalVal := .malf cdBody ["n"] 0 false .nil

/-- Environment 0: the `=` and `-` built-ins plus `f` bound to the
countdown closure — the cyclic shape `def!` produces (the closure captures
the environment that holds it). -/
def cdEnv0 : EnvData :=
  ⟨[("=", .rust "=" 0 .nil), ("-", .rust "-" 0 .nil), ("f", cdClosure)], none⟩

def cdInterp : Interp := { envs := [cdEnv0], atoms := [] }

/-- The binding environment of one countdown invocation. -/
def cdArgEnv (k : Nat) : EnvData := ⟨[("n", (.num k : MalVal))], some 0⟩

def cdCall (n : Nat) : MalVal := .list [.sym "f", .num n]

/-- The store/environment invariant maintained across countdown
iterations: environment 0 is the countdown root, `e ≥ 1` is the current
binding environment holding `n ↦ k`. -/
def CdOk (s : Interp) (e k : Nat) : Prop :=
  s.envs.get? 0 = some cdEnv0 ∧ s.envs.get? e = some (cdArgEnv k) ∧ 1 ≤ e

/-! ## C1 — reader-macro expansion of `^m v`

The spec requires `^m v` to read as `(with-meta v m)`, and
`reader.rs` implements `read_with_meta` and dispatches on a `Caret` token;
its own test `test_read_str_with_meta` expects `read_str("^a +")` to
produce `(with-meta + a)`.  But `scan_token` (`tokenizer.rs` lines 26-47)
has no arm for `'^'`: the caret falls through to `scan_nonspecial_token`
and becomes the symbol `^`, so no `Caret` token is ever produced and
`read_str("^a +")` fails with `ParserError("Expected EOF, found token")`. -/

/-- C1 (code bug): on the input `^a +` the tokenizer produces three symbol
tokens (`^`, `a`, `+`) rather than a caret token, so `read_str` returns a
parser error instead of the `(with-meta + a)` list its own test expects;
a lone `^` reads as the symbol `^`. -/
theorem c1_with_meta_never_produced :
    tokenize ("^a +") = .ok [.symbolTok ("^"), .symbolTok ("a"), .symbolTok ("+")] ∧
    readStr ("^a +") = .error (.mal (.parser "Expected EOF, found token")) ∧
    readStr ("^") = .ok (.sym ("^")) := by
  refine ⟨?_, ?_, ?_⟩ <;> with_unfolding_all rfl

/-! ## C2 — variadic binding when the arguments are exhausted

The spec (and claim) says the name after `&` binds to the empty list when
`exprs` has at most `i` elements (`i` the position of `&`).  The code
(`env.rs` line 49) builds `exprs[i..].to_vec()`, and a Rust range-slice
panics when the start exceeds the length: with `binds = [a, &, r]` and no
arguments, `i = 1 > 0 = exprs.len()` panics, although the positional
branch right below carefully pads missing arguments with `Nil`.  The
boundary case `i = exprs.len()` does produce the empty list. -/

/-- C2 (code bug): `with_binds([a, &, r], [])` panics (slice start index
out of range) instead of binding `r` to `()`; with one argument
(`i = exprs.len()`) it succeeds and `r` is the empty list. -/
theorem c2_variadic_exhausted_panics :
    withBinds emptyInterp none ["a", "&", "r"] [] =
      .error (.panic "slice start index out of range") ∧
    (do let (id, s) ← withBinds emptyInterp none ["a", "&", "r"] [.num 7]
        envGet s id "r" : Res MalVal) = .ok (.list []) := by
  constructor <;> with_unfolding_all rfl

/-! ## C3 — `=` on Atoms, MalFuncs, RustFuncs

The claim says these three compare by pointer identity of the underlying
object.  In the code, `impl PartialEq for MalValueType` (`types.rs` lines
177-199) has no `(Atom, Atom)` arm, so two atoms — even the very same atom
— fall through to the catch-all and compare `false` (the `Rc` pointer fast
path needs `Eq`, which `MalValueType` does not implement).  `RustFunction`
compares function-pointer value and then the captured environments
structurally (ignoring meta), and `MalFunction` derives field-by-field
comparison; neither consults object identity, and the environment
comparison recurses through the whole binding table. -/

/-- C3 counterexample: the same atom object compared with itself yields
`False`, where the claim requires `True`. -/
theorem c3_same_atom_not_equal :
    malValueEq 100 oneAtomInterp (.atom 0) (.atom 0) = some false := by
  with_unfolding_all rfl

/-- C3 (amended): `=` on two Atoms is always `False`, even for the same
atom; two RustFuncs compare by function-pointer value and structural
comparison of their captured environments, with the meta field ignored;
two MalFuncs compare field by field (body, parameters, environment, macro
flag, meta).  Object identity plays no role: distinct `RustFunc` objects
with the same pointer and environment but different meta compare `True`,
and `MalFunc`s differing only in meta compare `False`. -/
theorem c3_identity_not_used :
    (∀ f s i j, malValueEq (f + 1) s (.atom i) (.atom j) = some false) ∧
    (∀ f s n1 e1 m1 n2 e2 m2,
      malValueEq (f + 1) s (.rust n1 e1 m1) (.rust n2 e2 m2) =
        if n1 = n2 then eqF f s (.env e1 e2) else some false) ∧
    (∀ f s b1 p1 e1 mf1 t1 b2 p2 e2 mf2 t2,
      malValueEq (f + 1) s (.malf b1 p1 e1 mf1 t1) (.malf b2 p2 e2 mf2 t2) =
        andO (eqF f s (.val b1 b2))
          (if p1 = p2 then
            andO (eqF f s (.env e1 e2))
              (if mf1 = mf2 then eqF f s (.val t1 t2) else some false)
          else some false)) ∧
    malValueEq 9 oneEmptyEnvInterp (.rust "+" 0 (.num 1)) (.rust "+" 0 (.num 2)) = some true ∧
    malValueEq 9 oneEmptyEnvInterp
      (.malf .nil [] 0 false (.num 1)) (.malf .nil [] 0 false (.num 2)) = some false := by
  refine ⟨fun f s i j => rfl, fun f s n1 e1 m1 n2 e2 m2 => rfl,
    fun f s b1 p1 e1 mf1 t1 b2 p2 e2 mf2 t2 => rfl, ?_, ?_⟩ <;> with_unfolding_all rfl

/-! ## C5 — the `eval` built-in re-enters at the root environment

`apply_ast` and `core_apply` invoke every `RustFunc` with the function's
captured environment (`rust_function.env.clone()`), and every built-in of
`core::ns` captures the root environment; `mal_eval` hands that
environment to the evaluator.  Hence `def!` through `eval` mutates the
root environment while `def!` inside a function body only mutates the
call's binding environment. -/

/-- C5: the value/top-level-binding trace of the scenario is
`1, 1` then `2, 1` (function-local `def!` invisible at top level) then
`3, 3` (`def!` through `eval` hits the root environment). -/
theorem c5_eval_uses_root_env :
    c5Run = .ok [.num 1, .num 1, .num 2, .num 1, .num 3, .num 3] := by
  with_unfolding_all rfl

/-! ## C8 — `nth` and out-of-range indices

The claim says every out-of-range index, including every negative index,
fails with a `RustFunctionError`.  The code (`core.rs` line 231) casts the
`f64` index with `as usize`, which saturates: negative indices become `0`
and succeed on any non-empty sequence. -/

/-- C8 counterexample: `nth` of a one-element list at index `-1` returns
that element instead of failing. -/
theorem c8_negative_index_succeeds :
    applyRustGo bottomLevel 0 "nth" [.list [.num 5], .num (-1)] 0 emptyInterp =
      .ok (.num 5, emptyInterp) := by
  with_unfolding_all rfl

/-- C8 (amended): `nth` saturate-casts the index to `usize` (truncating
toward zero, negatives to `0`, values past `usize::MAX` to `usize::MAX`)
and returns the element at the cast position when it is within range,
failing with `RustFunctionError("nth: index out of range")` otherwise —
in particular every negative index on a non-empty sequence returns element
`0`.  Holds for Lists and Vectors alike. -/
theorem c8_nth_saturating_cast (L : Level) (st : Nat) (xs : List MalVal) (i : Rat)
    (e : Nat) (s : Interp) :
    (applyRustGo L st "nth" [.list xs, .num i] e s =
      match xs.get? (f64ToUsize i) with
      | some v => .ok (v, s)
      | none => .error (.mal (.rustFunction "nth: index out of range"))) ∧
    (applyRustGo L st "nth" [.vect xs, .num i] e s =
      match xs.get? (f64ToUsize i) with
      | some v => .ok (v, s)
      | none => .error (.mal (.rustFunction "nth: index out of range"))) ∧
    (i < 0 → f64ToUsize i = 0) := by
  refine ⟨?_, ?_, ?_⟩
  · show (if ("nth" : String) = "+" then _ else _) = _
    norm_num [applyRustGo, argCountEq, getNumberArg]
    cases xs.get? (f64ToUsize i) <;> rfl
  · show (if ("nth" : String) = "+" then _ else _) = _
    norm_num [applyRustGo, argCountEq, getNumberArg]
    cases xs.get? (f64ToUsize i) <;> rfl
  · intro hi
    simp [f64ToUsize, hi]

/-- Witness for the C8 amended theorem at concrete inputs. -/
theorem c8_nth_saturating_cast_witness :
    (applyRustGo bottomLevel 0 "nth" [.list [.num 5, .num 6], .num (3/2)] 0 emptyInterp =
      .ok (.num 6, emptyInterp)) ∧ f64ToUsize (-1) = 0 := by
  refine ⟨?_, (c8_nth_saturating_cast bottomLevel 0 [.num 5, .num 6] (-1) 0 emptyInterp).2.2 (by norm_num)⟩
  have h := (c8_nth_saturating_cast bottomLevel 0 [.num 5, .num 6] (3/2) 0 emptyInterp).1
  rw [h]
  with_unfolding_all rfl

/-! ## C7 — List/Vector cross equality

The `PartialEq` arms `(List, Vector)` and `(Vector, List)` compare
element-wise, so the claim holds for value trees made of data — but an
Atom element makes the comparison `False` (no `(Atom, Atom)` arm), and a
function element drags the captured environment into the comparison, which
recurses forever on any environment that (like every root environment)
contains a function capturing it. -/

/-- In a map without duplicate hash keys, `find?` on an entry's hash key
returns that entry. -/
theorem find_of_nodup_keys (m : MapEntries) (hnd : (m.map (fun e => e.1)).Nodup) :
    ∀ e ∈ m, m.find? (fun x => x.1 = e.1) = some e := by
  induction m with
  | nil => intro e he; cases he
  | cons a rest ih =>
    intro e he
    rcases List.mem_cons.mp he with rfl | hmem
    · simp [List.find?]
    · have hne : a.1 ≠ e.1 := by
        intro hcontra
        have : e.1 ∈ rest.map (fun e => e.1) := List.mem_map_of_mem _ hmem
        rw [List.map_cons] at hnd
        exact (List.nodup_cons.mp hnd).1 (hcontra ▸ this)
      have := ih (by rw [List.map_cons] at hnd; exact (List.nodup_cons.mp hnd).2) e hmem
      simp [List.find?, hne, this]

/-- Data-only values compare equal to themselves at any fuel at least their
size, and so do data-only sequences and map-entry lists. -/
theorem eqF_self_all (s : Interp) :
    ∀ f,
      (∀ v, PureVal v → sizeOf v ≤ f → eqF f s (.val v v) = some true) ∧
      (∀ xs : List MalVal, (∀ x ∈ xs, PureVal x) → sizeOf xs ≤ f →
        eqF f s (.seq xs xs) = some true) ∧
      (∀ m a : MapEntries, (∀ e ∈ a, PureVal e.2.2) →
        (∀ e ∈ a, m.find? (fun x => x.1 = e.1) = some e) → sizeOf a ≤ f →
        eqF f s (.entries a m) = some true) := by
  intro f
  induction f using Nat.strong_induction_on with
  | _ f IH =>
    match f with
    | 0 =>
      refine ⟨fun v hv hle => absurd hle ?_, fun xs hxs hle => absurd hle ?_,
        fun m a ha hfind hle => absurd hle ?_⟩
      · cases hv <;> simp
      · cases xs <;> simp
      · cases a <;> simp
    | g + 1 =>
      have ihg := IH g (Nat.lt_succ_self g)
      refine ⟨?_, ?_, ?_⟩
      · intro v hv hle
        cases hv with
        | nilP => rfl
        | truP => rfl
        | flsP => rfl
        | numP q => simp [eqF]
        | symP x => simp [eqF]
        | strP x => simp [eqF]
        | keywordP x => simp [eqF]
        | listP xs hxs =>
          show eqF g s (.seq xs xs) = some true
          exact ihg.2.1 xs hxs (by simp at hle; omega)
        | vectP xs hxs =>
          show eqF g s (.seq xs xs) = some true
          exact ihg.2.1 xs hxs (by simp at hle; omega)
        | mmapP m hnd hvals =>
          show andO (some (decide (m.length = m.length))) (eqF g s (.entries m m)) = some true
          rw [ihg.2.2 m m hvals (find_of_nodup_keys m hnd) (by simp at hle; omega)]
          simp [andO]
      · intro xs hxs hle
        cases xs with
        | nil => rfl
        | cons x rest =>
          show andO (eqF g s (.val x x)) (eqF g s (.seq rest rest)) = some true
          rw [ihg.1 x (hxs x (by simp)) (by simp at hle; omega),
            ihg.2.1 rest (fun y hy => hxs y (by simp [hy])) (by simp at hle; omega)]
          rfl
      · intro m a ha hfind hle
        cases a with
        | nil => rfl
        | cons e rest =>
          show (match m.find? (fun x => x.1 = e.1) with
            | some x => andO (eqF g s (.val e.2.2 x.2.2)) (eqF g s (.entries rest m))
            | none => some false) = some true
          rw [hfind e (by simp)]
          show andO (eqF g s (.val e.2.2 e.2.2)) (eqF g s (.entries rest m)) = some true
          rw [ihg.1 e.2.2 (ha e (by simp)) (by rcases e with ⟨e1, e2, e3⟩; simp at hle ⊢; omega),
            ihg.2.2 m rest (fun y hy => ha y (by simp [hy]))
              (fun y hy => hfind y (by simp [hy])) (by simp at hle; omega)]
          rfl

/-- Comparing the canonical function-carrying value (a built-in capturing
an environment that contains it) with itself never terminates: the
environment comparison re-compares the function, which re-compares the
environment. -/
theorem eqF_env_diverges :
    ∀ f, eqF f funcEnvInterp (.env 0 0) = none ∧
      eqF f funcEnvInterp (.val (.rust "+" 0 .nil) (.rust "+" 0 .nil)) = none ∧
      eqF f funcEnvInterp (.data [("+", .rust "+" 0 .nil)] [("+", .rust "+" 0 .nil)]) = none := by
  intro f
  induction f with
  | zero => exact ⟨rfl, rfl, rfl⟩
  | succ g ih =>
    refine ⟨?_, ?_, ?_⟩
    · show andO (andO (some (decide (1 = 1)))
        (eqF g funcEnvInterp (.data [("+", .rust "+" 0 .nil)] [("+", .rust "+" 0 .nil)])))
        (some true) = none
      rw [ih.2.2]
      rfl
    · show (if ("+" : String) = "+" then eqF g funcEnvInterp (.env 0 0) else some false) = none
      rw [if_pos rfl, ih.1]
    · show (match dataLookup [("+", MalVal.rust "+" 0 .nil)] "+" with
        | some w => andO (eqF g funcEnvInterp (.val (.rust "+" 0 .nil) w))
            (eqF g funcEnvInterp (.data [] [("+", .rust "+" 0 .nil)]))
        | none => some false) = none
      show andO (eqF g funcEnvInterp (.val (.rust "+" 0 .nil) (.rust "+" 0 .nil)))
        (eqF g funcEnvInterp (.data [] [("+", .rust "+" 0 .nil)])) = none
      rw [ih.2.1]
      rfl

/-- C7 counterexample: a List and a Vector with the same single element are
not equal under `=` when that element is an atom (the comparison returns
`False`), nor when it is a function capturing a root-like environment (the
comparison never returns at all — in Rust it overflows the host stack). -/
theorem c7_same_elements_not_equal :
    malValueEq 100 oneAtomInterp (.list [.atom 0]) (.vect [.atom 0]) = some false ∧
    malValueEq 100 funcEnvInterp
      (.list [.rust "+" 0 .nil]) (.vect [.rust "+" 0 .nil]) = none := by
  constructor
  · with_unfolding_all rfl
  · show andO (eqF 98 funcEnvInterp (.val (.rust "+" 0 .nil) (.rust "+" 0 .nil)))
      (eqF 98 funcEnvInterp (.seq [] [])) = none
    rw [(eqF_env_diverges 98).2.1]
    rfl

/-- C7 (amended): a List and a Vector holding the same element sequence are
equal under `=` provided the elements are pure data (no atoms and no
functions anywhere inside them), and a List or Vector is never equal to a
value of any variant other than List or Vector. -/
theorem c7_list_vector_cross_equality (s : Interp) :
    (∀ xs : List MalVal, (∀ x ∈ xs, PureVal x) →
      malValueEq (sizeOf xs + 1) s (.list xs) (.vect xs) = some true ∧
      malValueEq (sizeOf xs + 1) s (.vect xs) (.list xs) = some true) ∧
    (∀ (f : Nat) (xs : List MalVal) (v : MalVal),
      (∀ ys, v ≠ .list ys) → (∀ ys, v ≠ .vect ys) →
      malValueEq (f + 1) s (.list xs) v = some false ∧
      malValueEq (f + 1) s (.vect xs) v = some false) := by
  constructor
  · intro xs hxs
    constructor <;>
      exact (eqF_self_all s (sizeOf xs)).2.1 xs hxs (Nat.le_refl _)
  · intro f xs v hnl hnv
    cases v <;> first
      | exact absurd rfl (hnl _)
      | exact absurd rfl (hnv _)
      | exact ⟨rfl, rfl⟩

/-- Witness for the amended C7 theorem: a concrete pure sequence compares
equal across List/Vector, and a List is not equal to `nil`. -/
theorem c7_list_vector_cross_equality_witness :
    malValueEq (sizeOf [MalVal.num 1, MalVal.str "a"] + 1) emptyInterp
      (.list [.num 1, .str "a"]) (.vect [.num 1, .str "a"]) = some true ∧
    malValueEq 5 emptyInterp (.list [.num 1]) .nil = some false := by
  constructor
  · exact ((c7_list_vector_cross_equality emptyInterp).1 [.num 1, .str "a"]
      (by intro x hx
          rcases List.mem_cons.mp hx with rfl | hx2
          · exact .numP 1
          rcases List.mem_cons.mp hx2 with rfl | hx3
          · exact .strP "a"
          cases hx3)).1
  · exact ((c7_list_vector_cross_equality emptyInterp).2 4 [.num 1] .nil
      (fun ys h => by cases h) (fun ys h => by cases h)).1

/-! ## C10 — duplicate keys in map construction

`extend_map_from_arguments` walks the key/value pairs in order and
`HashMap::insert`s each, so a repeated key ends up with the value of its
last occurrence; String and Keyword keys hash to `"s" ++ text` and
`"k" ++ text` respectively and never collide. -/

theorem getValHk_insert (m : MapEntries) (hk : String) (k v : MalVal) (hk' : String) :
    getValHk (mapInsert m hk k v) hk' = if hk' = hk then some v else getValHk m hk' := by
  induction m with
  | nil =>
    show getValHk [(hk, k, v)] hk' = _
    by_cases h : hk' = hk
    · subst h
      simp [getValHk, List.find?]
    · simp [getValHk, List.find?, show ¬hk = hk' from fun hc => h hc.symm, h]
  | cons a rest ih =>
    rcases a with ⟨ahk, ak, av⟩
    show getValHk (if ahk = hk then (ahk, ak, v) :: rest
      else (ahk, ak, av) :: mapInsert rest hk k v) hk' = _
    by_cases ha : ahk = hk
    · rw [if_pos ha]
      subst ha
      by_cases h : hk' = ahk
      · subst h
        simp [getValHk, List.find?]
      · simp [getValHk, List.find?, show ¬ahk = hk' from fun hc => h hc.symm, h]
    · rw [if_neg ha]
      by_cases h2 : ahk = hk'
      · subst h2
        simp [getValHk, List.find?, show ¬ahk = hk from ha]
      · have hskip : ∀ t : MapEntries,
            getValHk ((ahk, ak, av) :: t) hk' = getValHk t hk' := by
          intro t
          simp [getValHk, List.find?, h2]
        rw [hskip]
        conv_rhs => rw [hskip]
        exact ih

theorem lastHk_foldl_init (hk : String) :
    ∀ (pairs : List (MalVal × MalVal)) (a : Option MalVal),
      pairs.foldl (fun acc p => if mapKeyStr p.1 = some hk then some p.2 else acc) a =
        (match pairs.foldl
            (fun acc p => if mapKeyStr p.1 = some hk then some p.2 else acc) none with
         | some v => some v
         | none => a) := by
  intro pairs
  induction pairs with
  | nil => intro a; rfl
  | cons p rest ih =>
    intro a
    by_cases hc : mapKeyStr p.1 = some hk
    · simp only [List.foldl_cons, if_pos hc]
      rw [ih (some p.2)]
      cases rest.foldl (fun acc p => if mapKeyStr p.1 = some hk then some p.2 else acc) none <;> rfl
    · simp only [List.foldl_cons, if_neg hc]
      rw [ih a]

/-- Two-at-a-time list induction, matching the recursion of
`extend_map_from_arguments`. -/
theorem twoStepInduction {motive : List MalVal → Prop}
    (h0 : motive [])
    (h1 : ∀ x, motive [x])
    (h2 : ∀ x y rest, motive rest → motive (x :: y :: rest)) : ∀ l, motive l
  | [] => h0
  | [x] => h1 x
  | x :: y :: rest => h2 x y rest (twoStepInduction h0 h1 h2 rest)

theorem extend_spec (args : List MalVal) :
    ∀ acc : MapEntries, args.length % 2 = 0 →
      (∀ p ∈ pairsOf args, (mapKeyStr p.1).isSome) →
      ∃ m, extendMapFromArguments acc args = .ok m ∧
        ∀ hk, getValHk m hk =
          (match lastHk args hk with
           | some v => some v
           | none => getValHk acc hk) := by
  induction args using twoStepInduction with
  | h0 => intro acc _ _; exact ⟨acc, rfl, fun hk => rfl⟩
  | h1 x => intro acc heven _; simp at heven
  | h2 k v rest ih =>
    intro acc heven hvalid
    have hk0 : ∃ hk0, mapKeyStr k = some hk0 := by
      have := hvalid (k, v) (by simp [pairsOf])
      cases h : mapKeyStr k
      · rw [h] at this; cases this
      · exact ⟨_, rfl⟩
    rcases hk0 with ⟨hk0, hhk0⟩
    have hstep : extendMapFromArguments acc (k :: v :: rest) =
        extendMapFromArguments (mapInsert acc hk0 k v) rest := by
      simp [extendMapFromArguments, hhk0]
    rcases ih (mapInsert acc hk0 k v) (by simp at heven; omega)
      (fun p hp => hvalid p (by simp [pairsOf, hp])) with ⟨m, hok, hget⟩
    refine ⟨m, hstep ▸ hok, fun hk => ?_⟩
    rw [hget hk, getValHk_insert]
    have hlast : lastHk (k :: v :: rest) hk =
        (match lastHk rest hk with
         | some w => some w
         | none => if mapKeyStr k = some hk then some v else none) := by
      show (pairsOf rest).foldl _ (if mapKeyStr k = some hk then some v else none) = _
      rw [lastHk_foldl_init]
      rfl
    rw [hlast]
    by_cases hcase : hk = hk0
    · subst hcase
      rw [if_pos rfl, hhk0]
      cases lastHk rest hk <;> simp
    · rw [if_neg hcase,
        if_neg (show ¬mapKeyStr k = some hk by
          rw [hhk0]; intro hc; exact hcase (Option.some.inj hc).symm)]
      cases lastHk rest hk <;> rfl

/-- C10: for every even-length argument sequence whose keys (the even
positions) are Strings or Keywords, map construction succeeds, and looking
up any key yields the value paired with the key's last occurrence in the
sequence (`Nil` when absent).  Since String keys hash to `"s" ++ text` and
Keyword keys to `"k" ++ text`, a String key and a Keyword key of the same
text are distinct entries. -/
theorem c10_last_occurrence_wins (args : List MalVal)
    (heven : args.length % 2 = 0)
    (hvalid : ∀ p ∈ pairsOf args, (mapKeyStr p.1).isSome) :
    (∃ m, mapFromArguments args = .ok m ∧
      ∀ key, mapGet m key = (lastPairValue args key).getD .nil) ∧
    (∀ t, mapKeyStr (.str t) ≠ mapKeyStr (.keyword t)) := by
  constructor
  · rcases extend_spec args [] heven hvalid with ⟨m, hok, hget⟩
    refine ⟨m, by simp [mapFromArguments, heven, hok], fun key => ?_⟩
    cases hkey : mapKeyStr key with
    | none => simp [mapGet, lastPairValue, hkey]
    | some hk =>
      have hm := hget hk
      have hmg : mapGet m key = (getValHk m hk).getD .nil := by
        simp only [mapGet, getValHk, hkey]
        cases m.find? (fun e => e.1 = hk) <;> rfl
      rw [hmg, hm]
      have hempty : getValHk [] hk = none := rfl
      rw [hempty]
      simp only [lastPairValue, hkey]
      cases lastHk args hk <;> rfl
  · intro t h
    have : ("s" ++ t) = ("k" ++ t) := Option.some.inj h
    have hd := congrArg String.data this
    simp [String.data_append] at hd

/-- Witness for C10: a sequence with a thrice-repeated String key `"x"` and
an interleaved Keyword key `:x`; the String key maps to the value of its
last occurrence and the Keyword key stays separate. -/
theorem c10_last_occurrence_wins_witness :
    (∃ m, mapFromArguments
        [.str "x", .num 1, .keyword "x", .num 2, .str "x", .num 3] = .ok m ∧
      mapGet m (.str "x") = .num 3 ∧ mapGet m (.keyword "x") = .num 2 ∧
      mapGet m (.keyword "y") = .nil) ∧
    mapKeyStr (.str "x") ≠ mapKeyStr (.keyword "x") := by
  have h := c10_last_occurrence_wins
    [.str "x", .num 1, .keyword "x", .num 2, .str "x", .num 3]
    (by rfl)
    (by intro p hp
        rcases List.mem_cons.mp hp with rfl | hp2
        · exact rfl
        rcases List.mem_cons.mp hp2 with rfl | hp3
        · exact rfl
        rcases List.mem_cons.mp hp3 with rfl | hp4
        · exact rfl
        cases hp4)
  rcases h.1 with ⟨m, hok, hget⟩
  refine ⟨⟨m, hok, ?_, ?_, ?_⟩, h.2 "x"⟩
  · rw [hget (.str "x")]; with_unfolding_all rfl
  · rw [hget (.keyword "x")]; with_unfolding_all rfl
  · rw [hget (.keyword "y")]; with_unfolding_all rfl

/-! ## C9 — surplus arguments are ignored

When `binds` has no `&`, the loop of `Env::with_binds` iterates over
`binds` only: each name is bound positionally and any surplus elements of
`exprs` are never touched, so application with too many arguments
succeeds. -/

theorem listModify_length {α : Type} (f : α → α) :
    ∀ (n : Nat) (l : List α), (listModify f n l).length = l.length := by
  intro n l
  induction l generalizing n with
  | nil => cases n <;> rfl
  | cons x xs ih => cases n <;> simp [listModify, ih]

theorem listModify_get_self {α : Type} (f : α → α) :
    ∀ (n : Nat) (l : List α), (listModify f n l).get? n = (l.get? n).map f := by
  intro n l
  induction l generalizing n with
  | nil => cases n <;> rfl
  | cons x xs ih =>
    cases n with
    | zero => simp [listModify]
    | succ n' => simpa [listModify] using ih n'

theorem listModify_get_other {α : Type} (f : α → α) :
    ∀ (n m : Nat) (l : List α), m ≠ n → (listModify f n l).get? m = l.get? m := by
  intro n m l
  induction l generalizing n m with
  | nil => intro _; cases n <;> rfl
  | cons x xs ih =>
    intro hne
    cases n with
    | zero => cases m with
      | zero => exact absurd rfl hne
      | succ m' => simp [listModify]
    | succ n' => cases m with
      | zero => simp [listModify]
      | succ m' => simpa [listModify] using ih n' m' (fun h => hne (by rw [h]))

theorem envSet_get_self (s : Interp) (id : Nat) (k : String) (v : MalVal) (d : EnvData)
    (h : s.envs.get? id = some d) :
    (envSet s id k v).envs.get? id = some ⟨dataInsert d.data k v, d.outer⟩ := by
  show (listModify _ id s.envs).get? id = _
  rw [listModify_get_self, h]
  rfl

theorem envSet_get_other (s : Interp) (id : Nat) (k : String) (v : MalVal) (m : Nat)
    (h : m ≠ id) : (envSet s id k v).envs.get? m = s.envs.get? m := by
  show (listModify _ id s.envs).get? m = _
  rw [listModify_get_other _ _ _ _ h]

theorem dataLookup_cons (pk : String) (pv : MalVal) (rest : List (String × MalVal))
    (k : String) :
    dataLookup ((pk, pv) :: rest) k = if pk = k then some pv else dataLookup rest k := by
  by_cases h : pk = k <;> simp [dataLookup, List.find?, h]

theorem dataInsert_cons (pk : String) (pv : MalVal) (rest : List (String × MalVal))
    (k : String) (v : MalVal) :
    dataInsert ((pk, pv) :: rest) k v =
      if pk = k then (k, v) :: rest else (pk, pv) :: dataInsert rest k v := rfl

theorem dataLookup_insert_self (d : List (String × MalVal)) (k : String) (v : MalVal) :
    dataLookup (dataInsert d k v) k = some v := by
  induction d with
  | nil => simp [dataInsert, dataLookup_cons]
  | cons p rest ih =>
    rcases p with ⟨pk, pv⟩
    rw [dataInsert_cons]
    by_cases h : pk = k
    · rw [if_pos h, dataLookup_cons, if_pos rfl]
    · rw [if_neg h, dataLookup_cons, if_neg h, ih]

theorem dataLookup_insert_other (d : List (String × MalVal)) (k : String) (v : MalVal)
    (k' : String) (h : k' ≠ k) :
    dataLookup (dataInsert d k v) k' = dataLookup d k' := by
  induction d with
  | nil =>
    simp [dataInsert, dataLookup_cons, dataLookup,
      show ¬k = k' from fun hc => h hc.symm]
  | cons p rest ih =>
    rcases p with ⟨pk, pv⟩
    rw [dataInsert_cons]
    by_cases hpk : pk = k
    · rw [if_pos hpk, dataLookup_cons, dataLookup_cons,
        if_neg (show ¬k = k' from fun hc => h hc.symm),
        if_neg (show ¬pk = k' from fun hc => h (hc.symm.trans hpk))]
    · rw [if_neg hpk, dataLookup_cons, dataLookup_cons, ih]

theorem dataInsert_length_absent (d : List (String × MalVal)) (k : String) (v : MalVal)
    (h : dataLookup d k = none) : (dataInsert d k v).length = d.length + 1 := by
  induction d with
  | nil => rfl
  | cons p rest ih =>
    rcases p with ⟨pk, pv⟩
    rw [dataLookup_cons] at h
    by_cases hpk : pk = k
    · rw [if_pos hpk] at h; cases h
    · rw [if_neg hpk] at h
      rw [dataInsert_cons, if_neg hpk]
      simp [ih h]

/-- The `&`-free loop of `with_binds` is the left fold of positional
`env.set`s over the indexed parameter names. -/
theorem withBindsGo_no_amp (exprs : List MalVal) :
    ∀ (binds : List String) (i : Nat) (s : Interp) (id : Nat), "&" ∉ binds →
      withBindsGo exprs s id binds i =
        .ok ((List.enumFrom i binds).foldl
          (fun st p => envSet st id p.2 ((exprs.get? p.1).getD .nil)) s) := by
  intro binds
  induction binds with
  | nil => intro i s id _; rfl
  | cons b rest ih =>
    intro i s id hamp
    have hb : ¬b = "&" := fun hc => hamp (by rw [hc]; exact List.mem_cons_self _ _)
    show (if b = "&" then _ else _) = _
    rw [if_neg hb]
    rw [ih (i + 1) _ id (fun hc => hamp (List.mem_cons_of_mem _ hc))]
    rfl

theorem foldl_envSet_get (exprs : List MalVal) (id : Nat) :
    ∀ (pairs : List (Nat × String)) (s : Interp) (d : EnvData),
      s.envs.get? id = some d →
      (pairs.foldl (fun st p => envSet st id p.2 ((exprs.get? p.1).getD .nil)) s).envs.get? id =
        some ⟨pairs.foldl
          (fun dd p => dataInsert dd p.2 ((exprs.get? p.1).getD .nil)) d.data, d.outer⟩ := by
  intro pairs
  induction pairs with
  | nil => intro s d h; simpa using h
  | cons p rest ih =>
    intro s d h
    exact ih _ _ (envSet_get_self s id p.2 _ d h)

theorem foldl_dataInsert_lookup_notin (exprs : List MalVal) :
    ∀ (binds : List String) (i : Nat) (dd : List (String × MalVal)) (key : String),
      key ∉ binds →
      dataLookup ((List.enumFrom i binds).foldl
        (fun acc p => dataInsert acc p.2 ((exprs.get? p.1).getD .nil)) dd) key =
        dataLookup dd key := by
  intro binds
  induction binds with
  | nil => intro i dd key _; rfl
  | cons b rest ih =>
    intro i dd key hkey
    show dataLookup ((List.enumFrom (i + 1) rest).foldl _ (dataInsert dd b _)) key = _
    rw [ih (i + 1) _ key (fun hc => hkey (List.mem_cons_of_mem _ hc)),
      dataLookup_insert_other _ _ _ _ (fun hc => hkey (by rw [hc]; exact List.mem_cons_self _ _))]

theorem foldl_dataInsert_lookup (exprs : List MalVal) :
    ∀ (binds : List String) (i : Nat) (dd : List (String × MalVal)),
      binds.Nodup →
      ∀ (j : Nat) (hj : j < binds.length),
        dataLookup ((List.enumFrom i binds).foldl
          (fun acc p => dataInsert acc p.2 ((exprs.get? p.1).getD .nil)) dd)
          (binds.get ⟨j, hj⟩) = some ((exprs.get? (i + j)).getD .nil) := by
  intro binds
  induction binds with
  | nil => intro i dd _ j hj; cases hj
  | cons b rest ih =>
    intro i dd hnd j hj
    cases j with
    | zero =>
      show dataLookup ((List.enumFrom (i + 1) rest).foldl _ (dataInsert dd b _)) b = _
      rw [foldl_dataInsert_lookup_notin exprs rest (i + 1) _ b (List.nodup_cons.mp hnd).1,
        dataLookup_insert_self]
      simp
    | succ j' =>
      have hih := ih (i + 1) (dataInsert dd b ((exprs.get? i).getD .nil))
        (List.nodup_cons.mp hnd).2 j' (Nat.lt_of_succ_lt_succ hj)
      have harith : i + 1 + j' = i + (j' + 1) := by omega
      rw [harith] at hih
      exact hih

theorem foldl_dataInsert_length (exprs : List MalVal) :
    ∀ (binds : List String) (i : Nat) (dd : List (String × MalVal)),
      binds.Nodup → (∀ b ∈ binds, dataLookup dd b = none) →
      ((List.enumFrom i binds).foldl
        (fun acc p => dataInsert acc p.2 ((exprs.get? p.1).getD .nil)) dd).length =
        dd.length + binds.length := by
  intro binds
  induction binds with
  | nil => intro i dd _ _; rfl
  | cons b rest ih =>
    intro i dd hnd habs
    show ((List.enumFrom (i + 1) rest).foldl _ (dataInsert dd b _)).length = _
    rw [ih (i + 1) _ (List.nodup_cons.mp hnd).2
      (fun b' hb' => by
        rw [dataLookup_insert_other _ _ _ _
          (fun hc : b' = b => (List.nodup_cons.mp hnd).1 (hc ▸ hb'))]
        exact habs b' (List.mem_cons_of_mem _ hb')),
      dataInsert_length_absent _ _ _ (habs b (List.mem_cons_self _ _))]
    simp
    omega

/-- Local lookup through `Env::get`: a key present in the environment's own
table is found there. -/
theorem envGet_of_local (s : Interp) (id : Nat) (key : String) (d : EnvData) (v : MalVal)
    (hd : s.envs.get? id = some d) (hv : dataLookup d.data key = some v) :
    envGet s id key = .ok v := by
  have hlen : id < s.envs.length := by
    by_contra hge
    rw [List.get?_eq_none.mpr (Nat.le_of_not_lt hge)] at hd
    cases hd
  have hfind : envFind s id key = some id := by
    show envFindGas s.envs.length s id key = some id
    rcases Nat.exists_eq_add_of_lt hlen with ⟨g, hg⟩
    rw [show s.envs.length = (id + g) + 1 by omega]
    show (match s.envs.get? id with
      | none => none
      | some d =>
        if (dataLookup d.data key).isSome then some id
        else match d.outer with
          | some o => envFindGas (id + g) s o key
          | none => none) = some id
    rw [hd]
    simp [hv]
  show ((match envFind s id key with
    | some e => pure ((((s.envs.get? e).map EnvData.data).bind
        (fun dd => dataLookup dd key)).getD .nil)
    | none => throw (.mal (.undefinedSymbol key))) : Res MalVal) = _
  rw [hfind]
  show (pure ((((s.envs.get? id).map EnvData.data).bind
      (fun dd => dataLookup dd key)).getD .nil) : Res MalVal) = _
  rw [hd]
  simp [hv]
  rfl

/-- C9: for a parameter list without `&`, with pairwise distinct names, and
an argument list strictly longer, `with_binds` succeeds; the fresh
environment binds exactly the parameters (its table has one entry per
parameter — the surplus arguments are nowhere stored), each parameter
positionally to its argument. -/
theorem c9_surplus_arguments_ignored (s : Interp) (outer : Option Nat)
    (binds : List String) (exprs : List MalVal)
    (hamp : "&" ∉ binds) (hnd : binds.Nodup) (hlen : binds.length < exprs.length) :
    ∃ id s' d, withBinds s outer binds exprs = .ok (id, s') ∧
      s'.envs.get? id = some d ∧
      d.data.length = binds.length ∧
      d.outer = outer ∧
      (∀ (j : Nat) (hj : j < binds.length),
        envGet s' id (binds.get ⟨j, hj⟩) =
          .ok (exprs.get ⟨j, Nat.lt_trans hj hlen⟩)) := by
  have hs0 : ({ s with envs := s.envs ++ [⟨[], outer⟩] } : Interp).envs.get? s.envs.length =
      some ⟨[], outer⟩ := by
    show (s.envs ++ [(⟨[], outer⟩ : EnvData)]).get? s.envs.length =
      some (⟨[], outer⟩ : EnvData)
    rw [List.get?_append_right (Nat.le_refl _)]
    simp
  have hok : withBinds s outer binds exprs =
      .ok (s.envs.length,
        (List.enumFrom 0 binds).foldl
          (fun st p => envSet st s.envs.length p.2 ((exprs.get? p.1).getD .nil))
          { s with envs := s.envs ++ [⟨[], outer⟩] }) := by
    show (withBindsGo exprs { s with envs := s.envs ++ [⟨[], outer⟩] }
        s.envs.length binds 0).bind (fun s'' => pure (s.envs.length, s'')) = _
    rw [withBindsGo_no_amp exprs binds 0 _ _ hamp]
    rfl
  have hfold := foldl_envSet_get exprs s.envs.length (List.enumFrom 0 binds)
    { s with envs := s.envs ++ [⟨[], outer⟩] } ⟨[], outer⟩ hs0
  refine ⟨s.envs.length, _, _, hok, hfold, ?_, rfl, ?_⟩
  · show (List.foldl _ (⟨[], outer⟩ : EnvData).data _).length = _
    show (List.foldl _ ([] : List (String × MalVal)) _).length = _
    rw [foldl_dataInsert_length exprs binds 0 [] hnd (fun _ _ => rfl)]
    simp
  · intro j hj
    have hlook := foldl_dataInsert_lookup exprs binds 0 [] hnd j hj
    rw [Nat.zero_add] at hlook
    have hval : (exprs.get? j).getD .nil = exprs.get ⟨j, Nat.lt_trans hj hlen⟩ := by
      rw [List.get?_eq_get (Nat.lt_trans hj hlen)]
      rfl
    exact envGet_of_local _ s.envs.length _ _ _ hfold (by rw [hlook, hval])

/-- Witness for C9: two parameters, three arguments; binding succeeds, the
surplus argument is dropped, and both parameters look up to their
positional arguments. -/
theorem c9_surplus_arguments_ignored_witness :
    ∃ id s' d, withBinds emptyInterp none ["x", "y"] [.num 1, .num 2, .num 3] =
        .ok (id, s') ∧
      s'.envs.get? id = some d ∧ d.data.length = 2 ∧ d.outer = none ∧
      envGet s' id "x" = .ok (.num 1) ∧ envGet s' id "y" = .ok (.num 2) := by
  rcases c9_surplus_arguments_ignored emptyInterp none ["x", "y"] [.num 1, .num 2, .num 3]
    (by decide) (by decide) (by decide) with ⟨id, s', d, hok, hget, hdlen, houter, hlook⟩
  exact ⟨id, s', d, hok, hget, hdlen, houter, hlook 0 (by decide), hlook 1 (by decide)⟩

/-! ## C4 — tail calls run in constant stack

Two parts.  First, the special forms `let*`, `do`, `if` and MalFunc
application yield `TailCall` verdicts carrying the syntactic tail form
(never a `Return` of an evaluated body), so the trampoline continues at
the same host-stack level.  Second, the spec's countdown function — a
`MalFunc` that tests its argument with `if` and re-invokes itself in tail
position — runs to completion for every `n` at the fixed host-stack depth
4, with only the step budget (time) growing linearly. -/

theorem bind_ok {α β : Type} (a : α) (f : α → Res β) :
    (Bind.bind (Except.ok a) f : Res β) = f a := rfl

theorem bind_pure {α β : Type} (a : α) (f : α → Res β) :
    (Bind.bind (pure a : Res α) f : Res β) = f a := rfl

theorem mkLevel_evalFn (f st : Nat) (ast : MalVal) (e : Nat) (s : Interp) :
    (mkLevel (f + 1)).evalFn st ast e s = evalLoop (mkLevel f) st ast e s := rfl

theorem mkLevel_applyRustFn (f st : Nat) (name : String) (args : List MalVal)
    (e : Nat) (s : Interp) :
    (mkLevel (f + 1)).applyRustFn st name args e s =
      applyRustGo (mkLevel f) st name args e s := rfl

/-- Evaluating a symbol takes one step, no nesting: it is the environment
lookup. -/
theorem evalLoop_sym (L : Level) (st : Nat) (key : String) (e : Nat) (s : Interp)
    (v : MalVal) (h : envGet s e key = .ok v) :
    evalLoop L (st + 1) (.sym key) e s = .ok (v, s) := by
  show (Bind.bind (envGet s e key) (fun v => pure (v, s)) : Res (MalVal × Interp)) = _
  rw [h]
  rfl

theorem evalLoop_num (L : Level) (st : Nat) (q : Rat) (e : Nat) (s : Interp) :
    evalLoop L (st + 1) (.num q) e s = .ok (.num q, s) := rfl

theorem evalLoop_keyword (L : Level) (st : Nat) (x : String) (e : Nat) (s : Interp) :
    evalLoop L (st + 1) (.keyword x) e s = .ok (.keyword x, s) := rfl

/-- The `=` built-in on two numbers is exact comparison (at any positive
level). -/
theorem applyRust_eq_nums (j st e : Nat) (s : Interp) (a b : Rat) :
    applyRustGo (mkLevel (j + 1)) st "=" [.num a, .num b] e s =
      .ok (newBoolean (decide (a = b)), s) := by
  with_unfolding_all rfl

/-- The `-` built-in on two numbers subtracts. -/
theorem applyRust_sub_nums (L : Level) (st e : Nat) (s : Interp) (a b : Rat) :
    applyRustGo L st "-" [.num a, .num b] e s = .ok (.num (a - b), s) := by
  with_unfolding_all rfl

/-- Environment lookup in a countdown store: `n` locally, everything else
one hop up in environment 0. -/
theorem cd_envGet (s : Interp) (e k : Nat) (h : CdOk s e k) :
    envGet s e "n" = .ok (.num k) ∧
    envGet s e "=" = .ok (.rust "=" 0 .nil) ∧
    envGet s e "-" = .ok (.rust "-" 0 .nil) ∧
    envGet s e "f" = .ok cdClosure := by
  rcases h with ⟨h0, he, he1⟩
  have hlen : e < s.envs.length := by
    by_contra hge
    rw [List.get?_eq_none.mpr (Nat.le_of_not_lt hge)] at he
    cases he
  refine ⟨envGet_of_local s e "n" _ _ he (by with_unfolding_all rfl), ?_, ?_, ?_⟩
  all_goals {
    have hhop : ∀ key, dataLookup (cdArgEnv k).data key = none →
        (dataLookup cdEnv0.data key).isSome →
        envGet s e key = .ok ((dataLookup cdEnv0.data key).getD .nil) := by
      intro key hmiss hhit
      have hfind : envFind s e key = some 0 := by
        show envFindGas s.envs.length s e key = some 0
        rcases Nat.exists_eq_add_of_lt hlen with ⟨g, hg⟩
        rw [show s.envs.length = (e + g) + 1 by omega]
        show (match s.envs.get? e with
          | none => none
          | some d =>
            if (dataLookup d.data key).isSome then some e
            else match d.outer with
              | some o => envFindGas (e + g) s o key
              | none => none) = some 0
        rw [he]
        show (if (dataLookup (cdArgEnv k).data key).isSome = true then some e
          else match (cdArgEnv k).outer with
            | some o => envFindGas (e + g) s o key
            | none => none) = some 0
        rw [hmiss]
        show (if (none : Option MalVal).isSome = true then some e
          else envFindGas (e + g) s 0 key) = some 0
        rw [if_neg (by simp)]
        rcases Nat.exists_eq_add_of_le he1 with ⟨g', hg'⟩
        rw [show e + g = g' + g + 1 by omega]
        show (match s.envs.get? 0 with
          | none => none
          | some d =>
            if (dataLookup d.data key).isSome then some 0
            else match d.outer with
              | some o => envFindGas (g' + g) s o key
              | none => none) = some 0
        rw [h0]
        simp only [hhit]
        rfl
      show ((match envFind s e key with
        | some en => pure ((((s.envs.get? en).map EnvData.data).bind
            (fun dd => dataLookup dd key)).getD .nil)
        | none => throw (.mal (.undefinedSymbol key))) : Res MalVal) = _
      rw [hfind]
      show (pure ((((s.envs.get? 0).map EnvData.data).bind
          (fun dd => dataLookup dd key)).getD .nil) : Res MalVal) = _
      rw [h0]
      rfl
    exact hhop _ (by with_unfolding_all rfl) (by with_unfolding_all rfl)
  }

theorem evalAstSeq_cons_ok (L : Level) (st : Nat) (x : MalVal) (xs : List MalVal)
    (e : Nat) (s : Interp) (v : MalVal) (s1 : Interp)
    (h : L.evalFn st x e s = .ok (v, s1)) :
    evalAstSeq L st (x :: xs) e s =
      Bind.bind (evalAstSeq L st xs e s1) (fun p => pure (v :: p.1, p.2)) := by
  show (Bind.bind (L.evalFn st x e s) _) = _
  rw [h, bind_ok]

theorem evalAstSeq_nil (L : Level) (st : Nat) (e : Nat) (s : Interp) :
    evalAstSeq L st [] e s = .ok ([], s) := rfl

/-- One trampoline iteration on a non-special application whose head
evaluation yields a `Return` verdict. -/
theorem evalLoop_app_ret (L : Level) (st : Nat) (nm : String) (args : List MalVal)
    (e : Nat) (s : Interp) (v : MalVal) (s1 : Interp)
    (h1 : nm ≠ "def!") (h2 : nm ≠ "let*") (h3 : nm ≠ "fn*") (h4 : nm ≠ "do")
    (h5 : nm ≠ "if") (h6 : nm ≠ "quote")
    (happ : applyAst L st (.list (.sym nm :: args)) e s = .ok (.ret v, s1)) :
    evalLoop L (st + 1) (.list (.sym nm :: args)) e s = .ok (v, s1) := by
  simp only [evalLoop, h1, h2, h3, h4, h5, h6, if_false, happ, bind_ok]
  rfl

/-- One trampoline iteration on a non-special application whose head
evaluation yields a `TailCall` verdict: the loop continues at the same
level with one step fewer. -/
theorem evalLoop_app_tail (L : Level) (st : Nat) (nm : String) (args : List MalVal)
    (e : Nat) (s : Interp) (a : MalVal) (e' : Nat) (s1 : Interp)
    (h1 : nm ≠ "def!") (h2 : nm ≠ "let*") (h3 : nm ≠ "fn*") (h4 : nm ≠ "do")
    (h5 : nm ≠ "if") (h6 : nm ≠ "quote")
    (happ : applyAst L st (.list (.sym nm :: args)) e s = .ok (.tailCall a e', s1)) :
    evalLoop L (st + 1) (.list (.sym nm :: args)) e s = evalLoop L st a e' s1 := by
  simp only [evalLoop, h1, h2, h3, h4, h5, h6, if_false, happ, bind_ok]

/-- One trampoline iteration on an `if` form with a `TailCall` verdict. -/
theorem evalLoop_if_tail (L : Level) (st : Nat) (args : List MalVal)
    (e : Nat) (s : Interp) (a : MalVal) (e' : Nat) (s1 : Interp)
    (happ : applyIf L st args e s = .ok (.tailCall a e', s1)) :
    evalLoop L (st + 1) (.list (.sym "if" :: args)) e s = evalLoop L st a e' s1 := by
  show (Bind.bind (applyIf L st args e s)
    (fun p => match p.1 with
      | .ret v => pure (v, p.2)
      | .tailCall a e' => evalLoop L st a e' p.2) : Res (MalVal × Interp)) = _
  rw [happ, bind_ok]

theorem listModify_concat {α : Type} (f : α → α) (l : List α) (x : α) :
    listModify f l.length (l ++ [x]) = l ++ [f x] := by
  induction l with
  | nil => rfl
  | cons y ys ih => simpa [listModify] using ih

/-- `with_binds` for the single parameter `n`: a fresh environment holding
`n ↦ x` whose parent is environment 0. -/
theorem withBinds_single_n (s : Interp) (x : MalVal) :
    withBinds s (some 0) ["n"] [x] =
      .ok (s.envs.length,
        { envs := s.envs ++ [⟨[("n", x)], some 0⟩], atoms := s.atoms }) := by
  show (Bind.bind
    (withBindsGo [x] { s with envs := s.envs ++ [(⟨[], some 0⟩ : EnvData)] }
      s.envs.length ["n"] 0)
    (fun s'' => (pure (s.envs.length, s'') : Res (Nat × Interp)))) = _
  show (Bind.bind
    ((pure (envSet { s with envs := s.envs ++ [(⟨[], some 0⟩ : EnvData)] }
      s.envs.length "n" x)) : Res Interp)
    (fun s'' => (pure (s.envs.length, s'') : Res (Nat × Interp)))) = _
  rw [bind_pure]
  show (pure (s.envs.length,
    envSet { s with envs := s.envs ++ [(⟨[], some 0⟩ : EnvData)] } s.envs.length "n" x) :
      Res (Nat × Interp)) = _
  simp only [envSet]
  rw [listModify_concat]
  rfl

/-- Evaluating the countdown test `(= n 0)` in a countdown environment:
two steps, two nested levels, no store change. -/
theorem cd_test_eval (j st e k : Nat) (s : Interp) (h : CdOk s e k) :
    evalLoop (mkLevel (j + 2)) (st + 2) cdTest e s =
      .ok (newBoolean (decide ((k : Rat) = 0)), s) := by
  rcases cd_envGet s e k h with ⟨hn, heq, _, _⟩
  have h1 : (mkLevel (j + 2)).evalFn (st + 1) (.sym "=") e s = .ok (.rust "=" 0 .nil, s) := by
    rw [mkLevel_evalFn (j + 1)]
    exact evalLoop_sym _ _ _ _ _ _ heq
  have h2 : (mkLevel (j + 2)).evalFn (st + 1) (.sym "n") e s = .ok (.num k, s) := by
    rw [mkLevel_evalFn (j + 1)]
    exact evalLoop_sym _ _ _ _ _ _ hn
  have h3 : (mkLevel (j + 2)).evalFn (st + 1) (.num 0) e s = .ok (.num 0, s) := by
    rw [mkLevel_evalFn (j + 1)]
    exact evalLoop_num _ _ _ _ _
  have happ : applyAst (mkLevel (j + 2)) (st + 1) cdTest e s =
      .ok (.ret (newBoolean (decide ((k : Rat) = 0))), s) := by
    show (Bind.bind (evalAst (mkLevel (j + 2)) (st + 1) cdTest e s) _) = _
    have hev : evalAst (mkLevel (j + 2)) (st + 1) cdTest e s =
        .ok (.list [.rust "=" 0 .nil, .num k, .num 0], s) := by
      show (Bind.bind
        (evalAstSeq (mkLevel (j + 2)) (st + 1) [.sym "=", .sym "n", .num 0] e s) _) = _
      rw [evalAstSeq_cons_ok _ _ _ _ _ _ _ _ h1, evalAstSeq_cons_ok _ _ _ _ _ _ _ _ h2,
        evalAstSeq_cons_ok _ _ _ _ _ _ _ _ h3, evalAstSeq_nil]
      rfl
    rw [hev, bind_ok]
    show (Bind.bind
      ((mkLevel (j + 2)).applyRustFn (st + 1) "=" [.num k, .num 0] 0 s) _) = _
    rw [mkLevel_applyRustFn (j + 1), applyRust_eq_nums j (st + 1) 0 s (k : Rat) 0, bind_ok]
    rfl
  exact evalLoop_app_ret _ _ _ _ _ _ _ _
    (by decide) (by decide) (by decide) (by decide) (by decide) (by decide) happ

/-- Evaluating `(- n 1)` in a countdown environment. -/
theorem cd_dec_eval (j st e k : Nat) (s : Interp) (h : CdOk s e k) :
    evalLoop (mkLevel (j + 2)) (st + 2) cdDec e s = .ok (.num ((k : Rat) - 1), s) := by
  rcases cd_envGet s e k h with ⟨hn, _, hsub, _⟩
  have h1 : (mkLevel (j + 2)).evalFn (st + 1) (.sym "-") e s = .ok (.rust "-" 0 .nil, s) := by
    rw [mkLevel_evalFn (j + 1)]
    exact evalLoop_sym _ _ _ _ _ _ hsub
  have h2 : (mkLevel (j + 2)).evalFn (st + 1) (.sym "n") e s = .ok (.num k, s) := by
    rw [mkLevel_evalFn (j + 1)]
    exact evalLoop_sym _ _ _ _ _ _ hn
  have h3 : (mkLevel (j + 2)).evalFn (st + 1) (.num 1) e s = .ok (.num 1, s) := by
    rw [mkLevel_evalFn (j + 1)]
    exact evalLoop_num _ _ _ _ _
  have happ : applyAst (mkLevel (j + 2)) (st + 1) cdDec e s =
      .ok (.ret (.num ((k : Rat) - 1)), s) := by
    show (Bind.bind (evalAst (mkLevel (j + 2)) (st + 1) cdDec e s) _) = _
    have hev : evalAst (mkLevel (j + 2)) (st + 1) cdDec e s =
        .ok (.list [.rust "-" 0 .nil, .num k, .num 1], s) := by
      show (Bind.bind
        (evalAstSeq (mkLevel (j + 2)) (st + 1) [.sym "-", .sym "n", .num 1] e s) _) = _
      rw [evalAstSeq_cons_ok _ _ _ _ _ _ _ _ h1, evalAstSeq_cons_ok _ _ _ _ _ _ _ _ h2,
        evalAstSeq_cons_ok _ _ _ _ _ _ _ _ h3, evalAstSeq_nil]
      rfl
    rw [hev, bind_ok]
    show (Bind.bind
      ((mkLevel (j + 2)).applyRustFn (st + 1) "-" [.num k, .num 1] 0 s) _) = _
    rw [mkLevel_applyRustFn (j + 1), applyRust_sub_nums _ (st + 1) 0 s (k : Rat) 1, bind_ok]
    rfl
  exact evalLoop_app_ret _ _ _ _ _ _ _ _
    (by decide) (by decide) (by decide) (by decide) (by decide) (by decide) happ

theorem applyIf3_false (L : Level) (st : Nat) (c th el : MalVal) (e : Nat) (s s1 : Interp)
    (ht : L.evalFn st c e s = .ok (.fls, s1)) :
    applyIf L st [c, th, el] e s = .ok (.tailCall el e, s1) := by
  show (Bind.bind (L.evalFn st c e s) _) = _
  rw [ht, bind_ok]
  rfl

theorem applyIf3_true (L : Level) (st : Nat) (c th el : MalVal) (e : Nat) (s s1 : Interp)
    (ht : L.evalFn st c e s = .ok (.tru, s1)) :
    applyIf L st [c, th, el] e s = .ok (.tailCall th e, s1) := by
  show (Bind.bind (L.evalFn st c e s) _) = _
  rw [ht, bind_ok]
  rfl

/-- One countdown unit with `n ↦ k + 1`: two trampoline iterations at the
same level turn `cdBody` in `e` into `cdBody` in a fresh binding
environment holding `n ↦ k`. -/
theorem cd_step (st e k' : Nat) (s : Interp) (h : CdOk s e (k' + 1)) :
    evalLoop (mkLevel 3) (st + 4) cdBody e s =
      evalLoop (mkLevel 3) (st + 2) cdBody s.envs.length
        { envs := s.envs ++ [cdArgEnv k'], atoms := s.atoms } := by
  rcases cd_envGet s e (k' + 1) h with ⟨hn, heq, hsub, hf⟩
  have ht : (mkLevel 3).evalFn (st + 3) cdTest e s = .ok (.fls, s) := by
    rw [mkLevel_evalFn 2]
    have h0 := cd_test_eval 0 (st + 1) e (k' + 1) s h
    rw [decide_eq_false (by exact_mod_cast Nat.succ_ne_zero k')] at h0
    exact h0
  have hdecEv : (mkLevel 3).evalFn (st + 2) cdDec e s = .ok (.num (k' : Rat), s) := by
    rw [mkLevel_evalFn 2]
    have h0 := cd_dec_eval 0 st e (k' + 1) s h
    rw [show ((k' + 1 : Nat) : Rat) - 1 = (k' : Rat) by push_cast; ring] at h0
    exact h0
  have hfEv : (mkLevel 3).evalFn (st + 2) (.sym "f") e s = .ok (cdClosure, s) := by
    rw [mkLevel_evalFn 2]
    exact evalLoop_sym _ _ _ _ _ _ hf
  have happ2 : applyAst (mkLevel 3) (st + 2) cdSelf e s =
      .ok (.tailCall cdBody s.envs.length,
        { envs := s.envs ++ [cdArgEnv k'], atoms := s.atoms }) := by
    show (Bind.bind (evalAst (mkLevel 3) (st + 2) cdSelf e s) _) = _
    have hev : evalAst (mkLevel 3) (st + 2) cdSelf e s =
        .ok (.list [cdClosure, .num (k' : Rat)], s) := by
      show (Bind.bind (evalAstSeq (mkLevel 3) (st + 2) [.sym "f", cdDec] e s) _) = _
      rw [evalAstSeq_cons_ok _ _ _ _ _ _ _ _ hfEv,
        evalAstSeq_cons_ok _ _ _ _ _ _ _ _ hdecEv, evalAstSeq_nil]
      rfl
    rw [hev, bind_ok]
    show (Bind.bind (withBinds s (some 0) ["n"] [.num (k' : Rat)])
      (fun p => pure (.tailCall cdBody p.1, p.2)) : Res (ApplyOk × Interp)) = _
    rw [withBinds_single_n, bind_ok]
    rfl
  have step1 : evalLoop (mkLevel 3) (st + 4) cdBody e s =
      evalLoop (mkLevel 3) (st + 3) cdSelf e s := by
    show evalLoop (mkLevel 3) ((st + 3) + 1)
      (.list (.sym "if" :: [cdTest, .keyword "done", cdSelf])) e s = _
    exact evalLoop_if_tail _ _ _ _ _ _ _ _ (applyIf3_false _ _ _ _ _ _ _ _ ht)
  have step2 : evalLoop (mkLevel 3) (st + 3) cdSelf e s =
      evalLoop (mkLevel 3) (st + 2) cdBody s.envs.length
        { envs := s.envs ++ [cdArgEnv k'], atoms := s.atoms } := by
    show evalLoop (mkLevel 3) ((st + 2) + 1) (.list (.sym "f" :: [cdDec])) e s = _
    exact evalLoop_app_tail _ _ _ _ _ _ _ _ _
      (by decide) (by decide) (by decide) (by decide) (by decide) (by decide) happ2
  rw [step1, step2]

/-- The terminal countdown iteration (`n ↦ 0`). -/
theorem cd_finish (st e : Nat) (s : Interp) (h : CdOk s e 0) :
    evalLoop (mkLevel 3) (st + 3) cdBody e s = .ok (.keyword "done", s) := by
  have ht : (mkLevel 3).evalFn (st + 2) cdTest e s = .ok (.tru, s) := by
    rw [mkLevel_evalFn 2]
    have h0 := cd_test_eval 0 st e 0 s h
    rw [decide_eq_true (by exact_mod_cast rfl)] at h0
    exact h0
  have step1 : evalLoop (mkLevel 3) (st + 3) cdBody e s =
      evalLoop (mkLevel 3) (st + 2) (.keyword "done") e s := by
    show evalLoop (mkLevel 3) ((st + 2) + 1)
      (.list (.sym "if" :: [cdTest, .keyword "done", cdSelf])) e s = _
    exact evalLoop_if_tail _ _ _ _ _ _ _ _ (applyIf3_true _ _ _ _ _ _ _ _ ht)
  rw [step1]
  exact evalLoop_keyword _ _ _ _ _

/-- The countdown loop terminates with `:done` for every starting value, at
the fixed level `mkLevel 3`, in `2k + m + 3` steps. -/
theorem cd_loop (k : Nat) : ∀ (m e : Nat) (s : Interp), CdOk s e k →
    ∃ s', evalLoop (mkLevel 3) (2 * k + m + 3) cdBody e s = .ok (.keyword "done", s') := by
  induction k with
  | zero =>
    intro m e s h
    rw [show 2 * 0 + m + 3 = m + 3 by omega]
    exact ⟨s, cd_finish m e s h⟩
  | succ k' ih =>
    intro m e s h
    have h0len : 0 < s.envs.length := by
      rcases h with ⟨h0, _, _⟩
      by_contra hge
      rw [List.get?_eq_none.mpr (Nat.le_of_not_lt hge)] at h0
      cases h0
    rw [show 2 * (k' + 1) + m + 3 = (2 * k' + m + 1) + 4 by omega,
      cd_step (2 * k' + m + 1) e k' s h,
      show (2 * k' + m + 1) + 2 = 2 * k' + m + 3 by omega]
    apply ih m s.envs.length
    refine ⟨?_, ?_, ?_⟩
    · show (s.envs ++ [cdArgEnv k']).get? 0 = some cdEnv0
      rw [List.get?_append h0len]
      exact h.1
    · show (s.envs ++ [cdArgEnv k']).get? s.envs.length = some (cdArgEnv k')
      rw [List.get?_append_right (Nat.le_refl _)]
      simp
    · omega

/-- The countdown call `(f n)` runs to `:done` for every `n` with host
fuel `4` and `2n + 6` trampoline steps. -/
theorem cd_run (n : Nat) :
    ∃ s', evalTop 4 (2 * n + 6) (cdCall n) 0 cdInterp = .ok (.keyword "done", s') := by
  have hf0 : (mkLevel 3).evalFn (2 * n + 5) (.sym "f") 0 cdInterp =
      .ok (cdClosure, cdInterp) := by
    rw [mkLevel_evalFn 2]
    exact evalLoop_sym _ (2 * n + 4) _ _ _ _ (by with_unfolding_all rfl)
  have hnum : (mkLevel 3).evalFn (2 * n + 5) (.num (n : Rat)) 0 cdInterp =
      .ok (.num (n : Rat), cdInterp) := by
    rw [mkLevel_evalFn 2]
    exact evalLoop_num _ (2 * n + 4) _ _ _
  have happ0 : applyAst (mkLevel 3) (2 * n + 5) (cdCall n) 0 cdInterp =
      .ok (.tailCall cdBody 1, { envs := [cdEnv0, cdArgEnv n], atoms := [] }) := by
    show (Bind.bind (evalAst (mkLevel 3) (2 * n + 5) (cdCall n) 0 cdInterp) _) = _
    have hev : evalAst (mkLevel 3) (2 * n + 5) (cdCall n) 0 cdInterp =
        .ok (.list [cdClosure, .num (n : Rat)], cdInterp) := by
      show (Bind.bind
        (evalAstSeq (mkLevel 3) (2 * n + 5) [.sym "f", .num (n : Rat)] 0 cdInterp) _) = _
      rw [evalAstSeq_cons_ok _ _ _ _ _ _ _ _ hf0,
        evalAstSeq_cons_ok _ _ _ _ _ _ _ _ hnum, evalAstSeq_nil]
      rfl
    rw [hev, bind_ok]
    show (Bind.bind (withBinds cdInterp (some 0) ["n"] [.num (n : Rat)])
      (fun p => pure (.tailCall cdBody p.1, p.2)) : Res (ApplyOk × Interp)) = _
    rw [withBinds_single_n, bind_ok]
    rfl
  have hstep : evalTop 4 (2 * n + 6) (cdCall n) 0 cdInterp =
      evalLoop (mkLevel 3) (2 * n + 5) cdBody 1
        { envs := [cdEnv0, cdArgEnv n], atoms := [] } := by
    show evalLoop (mkLevel 3) ((2 * n + 5) + 1) (.list (.sym "f" :: [.num (n : Rat)]))
      0 cdInterp = _
    exact evalLoop_app_tail _ _ _ _ _ _ _ _ _
      (by decide) (by decide) (by decide) (by decide) (by decide) (by decide) happ0
  rw [hstep, show 2 * n + 5 = 2 * n + 2 + 3 by omega]
  exact cd_loop n 2 1 { envs := [cdEnv0, cdArgEnv n], atoms := [] }
    ⟨rfl, rfl, Nat.le_refl 1⟩

theorem resBind_ok_inv {α β : Type} {x : Res α} {f : α → Res β} {v : β}
    (h : (Bind.bind x f : Res β) = Except.ok v) :
    ∃ a, x = Except.ok a ∧ f a = Except.ok v := by
  cases x with
  | error e => exact Except.noConfusion h
  | ok a => exact ⟨a, rfl, h⟩

/-- `apply_special_form_let` can only succeed with a `TailCall` verdict on
the body: it never calls `eval` on the tail-position form. -/
theorem applyLet_tail (L : Level) (st : Nat) (args : List MalVal) (e : Nat) (s : Interp)
    (v : ApplyOk) (s' : Interp) (h : applyLet L st args e s = .ok (v, s')) :
    ∃ a i, v = .tailCall a i := by
  rcases args with _ | ⟨a0, _ | ⟨a1, _ | ⟨a2, rest⟩⟩⟩
  · exact Except.noConfusion h
  · exact Except.noConfusion h
  case cons.cons.nil =>
    have hbv : ∀ bs : List MalVal,
        (if bs.length % 2 ≠ 0 then
          (throw (.mal (.specialForm "let* bindings list must have an even number of elements"))
            : Res (ApplyOk × Interp))
         else
          Bind.bind (letLoop L st (createEnv s (some e)).1 bs (createEnv s (some e)).2)
            (fun s2 => pure (.tailCall a1 (createEnv s (some e)).1, s2))) = .ok (v, s') →
        ∃ a i, v = .tailCall a i := by
      intro bs hb
      by_cases hlen : bs.length % 2 ≠ 0
      · rw [if_pos hlen] at hb
        exact Except.noConfusion hb
      · rw [if_neg hlen] at hb
        obtain ⟨s2, _, hp⟩ := resBind_ok_inv hb
        have hp' : Except.ok ((.tailCall a1 (createEnv s (some e)).1 : ApplyOk), s2) =
            Except.ok (v, s') := hp
        injection hp' with hpair
        exact ⟨a1, (createEnv s (some e)).1, (congrArg Prod.fst hpair).symm⟩
    cases a0 with
    | list bs => exact hbv bs h
    | vect bs => exact hbv bs h
    | nil => exact Except.noConfusion h
    | tru => exact Except.noConfusion h
    | fls => exact Except.noConfusion h
    | num q => exact Except.noConfusion h
    | sym n => exact Except.noConfusion h
    | str t => exact Except.noConfusion h
    | keyword k => exact Except.noConfusion h
    | mmap es => exact Except.noConfusion h
    | rust n i m => exact Except.noConfusion h
    | malf b p i f m => exact Except.noConfusion h
    | atom i => exact Except.noConfusion h
  · exact Except.noConfusion h

/-- `apply_special_form_do` on a non-empty form list can only succeed with a
`TailCall` verdict on the last form, in the same environment. -/
theorem applyDo_tail (L : Level) (st : Nat) (args : List MalVal) (e : Nat) (s : Interp)
    (v : ApplyOk) (s' : Interp) (hne : args ≠ [])
    (h : applyDo L st args e s = .ok (v, s')) :
    ∃ a, v = .tailCall a e := by
  rcases args with _ | ⟨a0, rest⟩
  · exact absurd rfl hne
  · have h' : (Bind.bind (doLoop L st e ((a0 :: rest).take ((a0 :: rest).length - 1)) s)
        (fun s1 => pure (.tailCall (((a0 :: rest).getLast?).getD .nil) e, s1))
        : Res (ApplyOk × Interp)) = .ok (v, s') := h
    obtain ⟨s1, _, hp⟩ := resBind_ok_inv h'
    have hp' : Except.ok ((.tailCall (((a0 :: rest).getLast?).getD .nil) e : ApplyOk), s1) =
        Except.ok (v, s') := hp
    injection hp' with hpair
    exact ⟨_, (congrArg Prod.fst hpair).symm⟩

/-- `apply_special_form_if` can only succeed with a `TailCall` verdict on
the chosen branch (same environment), or `Return Nil` when the condition is
falsy and there is no else branch: it never calls `eval` on a branch. -/
theorem applyIf_tail (L : Level) (st : Nat) (args : List MalVal) (e : Nat) (s : Interp)
    (v : ApplyOk) (s' : Interp) (h : applyIf L st args e s = .ok (v, s')) :
    (∃ a, v = .tailCall a e) ∨ v = .ret .nil := by
  rcases args with _ | ⟨c, _ | ⟨th, _ | ⟨el, _ | ⟨x, rest⟩⟩⟩⟩
  · exact Except.noConfusion h
  · exact Except.noConfusion h
  case cons.cons.nil =>
    have h' : (Bind.bind (L.evalFn st c e s)
        (fun p => match p.1 with
          | .fls => pure (.ret .nil, p.2)
          | .nil => pure (.ret .nil, p.2)
          | _ => pure (.tailCall th e, p.2)) : Res (ApplyOk × Interp)) = .ok (v, s') := h
    obtain ⟨p, _, hp⟩ := resBind_ok_inv h'
    rcases p with ⟨t, s1⟩
    cases t <;>
      first
        | (right
           have hp' : Except.ok ((.ret .nil : ApplyOk), s1) = Except.ok (v, s') := hp
           injection hp' with hpair
           exact (congrArg Prod.fst hpair).symm)
        | (left
           have hp' : Except.ok ((.tailCall th e : ApplyOk), s1) = Except.ok (v, s') := hp
           injection hp' with hpair
           exact ⟨th, (congrArg Prod.fst hpair).symm⟩)
  case cons.cons.cons.nil =>
    have h' : (Bind.bind (L.evalFn st c e s)
        (fun p => match p.1 with
          | .fls => pure (.tailCall el e, p.2)
          | .nil => pure (.tailCall el e, p.2)
          | _ => pure (.tailCall th e, p.2)) : Res (ApplyOk × Interp)) = .ok (v, s') := h
    obtain ⟨p, _, hp⟩ := resBind_ok_inv h'
    rcases p with ⟨t, s1⟩
    cases t <;>
      first
        | (left
           have hp' : Except.ok ((.tailCall el e : ApplyOk), s1) = Except.ok (v, s') := hp
           injection hp' with hpair
           exact ⟨el, (congrArg Prod.fst hpair).symm⟩)
        | (left
           have hp' : Except.ok ((.tailCall th e : ApplyOk), s1) = Except.ok (v, s') := hp
           injection hp' with hpair
           exact ⟨th, (congrArg Prod.fst hpair).symm⟩)
  · exact Except.noConfusion h

/-- Applying an evaluated list headed by a `MalFunc` can only succeed with
a `TailCall` verdict on the function body: `apply_ast` never calls `eval`
on the body itself. -/
theorem applyEvaluated_malf_tail (L : Level) (st : Nat) (body : MalVal)
    (params : List String) (envId : Nat) (mac : Bool) (mv : MalVal) (args : List MalVal)
    (s1 : Interp) (v : ApplyOk) (s' : Interp)
    (h : applyEvaluated L st (.list (.malf body params envId mac mv :: args)) s1 =
      .ok (v, s')) :
    ∃ i, v = .tailCall body i := by
  have h' : (Bind.bind (withBinds s1 (some envId) params args)
      (fun p => pure (.tailCall body p.1, p.2)) : Res (ApplyOk × Interp)) = .ok (v, s') := h
  obtain ⟨p, _, hp⟩ := resBind_ok_inv h'
  have hp' : Except.ok ((.tailCall body p.1 : ApplyOk), p.2) = Except.ok (v, s') := hp
  injection hp' with hpair
  exact ⟨p.1, (congrArg Prod.fst hpair).symm⟩

/-- C4 (confirmed): `let*`, `do`, `if` and MalFunc application never recurse
into `eval` for the form in tail position — whenever they succeed, the
verdict handed back to the trampoline is `TailCall` (with `Return Nil` for
the argument-free `(do)` and an else-less falsy `if`, where no tail form
exists), so `eval`'s loop replaces `cur_ast`/`cur_env` in place — and a
recursive MalFunc counting its argument down to zero through an `if` whose
self-call is in tail position runs to completion for every starting value
`n` at the fixed host recursion depth `4`, in `2n + 6` trampoline
iterations: the host call stack does not grow with `n`. -/
theorem c4_tail_position_no_eval_recursion :
    (∀ (L : Level) (st : Nat) (args : List MalVal) (e : Nat) (s : Interp) (v : ApplyOk)
        (s' : Interp), applyLet L st args e s = .ok (v, s') → ∃ a i, v = .tailCall a i) ∧
    (∀ (L : Level) (st : Nat) (args : List MalVal) (e : Nat) (s : Interp) (v : ApplyOk)
        (s' : Interp), args ≠ [] → applyDo L st args e s = .ok (v, s') →
        ∃ a, v = .tailCall a e) ∧
    (∀ (L : Level) (st : Nat) (args : List MalVal) (e : Nat) (s : Interp) (v : ApplyOk)
        (s' : Interp), applyIf L st args e s = .ok (v, s') →
        (∃ a, v = .tailCall a e) ∨ v = .ret .nil) ∧
    (∀ (L : Level) (st : Nat) (body : MalVal) (params : List String) (envId : Nat)
        (mac : Bool) (mv : MalVal) (args : List MalVal) (s1 : Interp) (v : ApplyOk)
        (s' : Interp),
        applyEvaluated L st (.list (.malf body params envId mac mv :: args)) s1 =
          .ok (v, s') → ∃ i, v = .tailCall body i) ∧
    (∀ n : Nat, ∃ s',
        evalTop 4 (2 * n + 6) (cdCall n) 0 cdInterp = .ok (.keyword "done", s')) :=
  ⟨applyLet_tail, fun L st args e s v s' hne h => applyDo_tail L st args e s v s' hne h,
    applyIf_tail, applyEvaluated_malf_tail, cd_run⟩

theorem c4_tail_position_no_eval_recursion_witness :
    (∃ a i, (ApplyOk.tailCall (.num 1) 0 : ApplyOk) = .tailCall a i) ∧
    (∃ a, (ApplyOk.tailCall (.num 1) 0 : ApplyOk) = .tailCall a 0) ∧
    ((∃ a, (ApplyOk.tailCall (.num 2) 0 : ApplyOk) = .tailCall a 0) ∨
      (ApplyOk.tailCall (.num 2) 0 : ApplyOk) = .ret .nil) ∧
    (∃ i, (ApplyOk.tailCall (.num 7) 1 : ApplyOk) = .tailCall (.num 7) i) ∧
    (∃ s', evalTop 4 (2 * 3 + 6) (cdCall 3) 0 cdInterp = .ok (.keyword "done", s')) :=
  ⟨c4_tail_position_no_eval_recursion.1 (mkLevel 0) 0 [.list [], .num 1] 0 emptyInterp
      (.tailCall (.num 1) 0) { envs := [⟨[], some 0⟩], atoms := [] }
      (by with_unfolding_all rfl),
    c4_tail_position_no_eval_recursion.2.1 (mkLevel 0) 0 [.num 1] 0 emptyInterp
      (.tailCall (.num 1) 0) emptyInterp (List.cons_ne_nil _ _)
      (by with_unfolding_all rfl),
    c4_tail_position_no_eval_recursion.2.2.1 (mkLevel 1) 1 [.nil, .num 1, .num 2] 0
      emptyInterp (.tailCall (.num 2) 0) emptyInterp (by with_unfolding_all rfl),
    c4_tail_position_no_eval_recursion.2.2.2.1 (mkLevel 0) 0 (.num 7) [] 0 false .nil []
      oneEmptyEnvInterp (.tailCall (.num 7) 1)
      { envs := [⟨[], none⟩, ⟨[], some 0⟩], atoms := [] } (by with_unfolding_all rfl),
    c4_tail_position_no_eval_recursion.2.2.2.2 3⟩

end MalRs
